import Mathlib

/-!
Verification development for the M&E platform's indicator formula engine
and analytics aggregation/caching pipeline.

Shallow embedding of the core subsystem:
* `indicators/services.py` — `IndicatorComputationService` (formula evaluation,
  filter application, indicator computation, batches);
* `analytics/services.py` — `AnalyticsEngine` (dimension aggregation, cache key
  generation, cache get/save) together with the `AnalyticsCache` row model from
  `analytics/models.py`.

Modelling conventions (documented once here):
* Machine floats are modelled by exact rationals (`ℚ`).  Python float arithmetic
  is exact on every value exercised by the theorems below; consequences of IEEE
  rounding/overflow are outside the model.  `str()` of a float is modelled by
  `floatChars`: integral values render as Python does (`"25.0"`); non-integral
  values render as a parenthesised exact fraction, which `eval` maps back to the
  same value, mirroring the repr/eval round trip of CPython floats.
* `pandas` cells are modelled per element (`Value`); a missing cell and `NaN`
  are both `Value.null` / an absent key.  `pd.to_numeric(errors='coerce')` is
  `valueToNumeric`; column statistics skip `NaN` exactly as pandas does
  (`sum` of an empty selection is `0`, `mean`/`min`/`max` are `NaN`, rendered
  by `str()` as the bare word `"nan"`).
* The regular expressions of `_evaluate_formula` are embedded directly as
  scanners with the same semantics: a case-insensitive function name, a greedy
  run of `[\w\s\-\.]+`, a closing parenthesis, and for `PERCENTAGE` a lazy
  second argument with optional quotes.  `re.finditer` collects the matches of
  the string as it stood at loop entry; `str.replace` replaces every
  occurrence left-to-right; both behaviours are reproduced.
* Python's `eval` of the residual arithmetic string is modelled by a restricted
  arithmetic evaluator over `+ - * / ( )` and numeric literals; any other token
  (for example the bare word `nan`, or an unresolved function call) is an
  evaluation error, exactly as `eval` raises `NameError`/`SyntaxError` there,
  and division by zero is an error as `eval` raises `ZeroDivisionError`.  The
  model's message for the `NameError` path is its own (`"invalid syntax"`), so
  claim-level theorems about that path assert only that evaluation fails and
  how the failure is reported, never that message's text; the
  `ZeroDivisionError` text `"division by zero"` and the missing-column
  `ValueError` text are reproduced verbatim from the source.
* Recursive scanners take an explicit fuel argument (always called with
  `length + 1`, which is sufficient since every step consumes at least one
  character); fuel-irrelevance lemmas are proved where general reasoning
  needs them.
-/

/-! ## Decimal digits -/

/-- The decimal digit character for `d < 10`. -/
def digitChar (d : Nat) : Char :=
  if d = 0 then '0' else if d = 1 then '1' else if d = 2 then '2'
  else if d = 3 then '3' else if d = 4 then '4' else if d = 5 then '5'
  else if d = 6 then '6' else if d = 7 then '7' else if d = 8 then '8'
  else '9'

/-- Fuel-driven decimal rendering of a natural number (`str(n)` for `n : int`). -/
def natCharsAux : Nat → Nat → List Char
  | 0, _ => []
  | fuel + 1, n =>
    if n < 10 then [digitChar n]
    else natCharsAux fuel (n / 10) ++ [digitChar (n % 10)]

/-- `str(n)` for a nonnegative Python int. -/
def natChars (n : Nat) : List Char := natCharsAux (n + 1) n

/-- `str(n)` for a Python int, including the sign. -/
def intChars (n : Int) : List Char :=
  if n < 0 then '-' :: natChars n.natAbs else natChars n.natAbs

/-- Numeric value of a decimal digit character. -/
def digitVal (c : Char) : Nat := c.toNat - 48

/-- Decode a list of decimal digit characters (most significant first). -/
def decodeDigits (ds : List Char) : Nat :=
  ds.foldl (fun a c => a * 10 + digitVal c) 0

/-! ## Scalar values

A dataset cell / a Python scalar.  `null` stands for `NaN`/missing.  Python
ints and floats are distinguished because `str()` renders them differently. -/

inductive Value where
  | null : Value
  | int (n : Int) : Value
  | float (q : ℚ) : Value
  | str (s : String) : Value
deriving DecidableEq, Repr

/-- `str()` of a Python float (see the header for the rendering model). -/
def floatChars (q : ℚ) : List Char :=
  if q.den = 1 then intChars q.num ++ ['.', '0']
  else '(' :: intChars q.num ++ ' ' :: '/' :: ' ' :: natChars q.den ++ [')']

/-- `str()` / `.astype(str)` of one cell; pandas renders `NaN` as `"nan"`. -/
def cellChars : Value → List Char
  | .null => ['n', 'a', 'n']
  | .int n => intChars n
  | .float q => floatChars q
  | .str s => s.toList

/-- `str()` of one Python object as the aggregation key builder sees it:
plain `str(None)` is `"None"`, not pandas' `"nan"`. -/
def pyChars : Value → List Char
  | .null => ['N', 'o', 'n', 'e']
  | .int n => intChars n
  | .float q => floatChars q
  | .str s => s.toList

/-- Pandas `==` comparison between a cell and a filter value: numeric values
compare across int/float; `NaN` compares unequal to everything, itself
included; values of different kinds are unequal. -/
def pyEq : Value → Value → Bool
  | .int m, .int n => m == n
  | .int m, .float q => ((m : ℚ) == q)
  | .float q, .int n => (q == (n : ℚ))
  | .float p, .float q => p == q
  | .str s, .str t => s == t
  | _, _ => false

/-- Is this character whitespace for `str.strip()` / `\s`? -/
def isSpace (c : Char) : Bool := c.isWhitespace

/-- `str.strip()`. -/
def stripWS (s : List Char) : List Char :=
  ((s.dropWhile isSpace).reverse.dropWhile isSpace).reverse

/-- A quote character (`'` or `"`). -/
def isQuote (c : Char) : Bool := c = Char.ofNat 39 || c = '"'

/-- `str.strip('\'"')`: strip any run of quote characters from both ends. -/
def stripQuotes (s : List Char) : List Char :=
  ((s.dropWhile isQuote).reverse.dropWhile isQuote).reverse

/-- Parse a run of digits with an optional fractional part as a nonnegative
rational; empty input is rejected.  Used for `pd.to_numeric` on strings. -/
def parseUnsigned (t : List Char) : Option ℚ :=
  let ip := t.takeWhile Char.isDigit
  let r1 := t.drop ip.length
  match r1 with
  | '.' :: r2 =>
    let fp := r2.takeWhile Char.isDigit
    if r2.drop fp.length = [] ∧ (ip ≠ [] ∨ fp ≠ []) then
      some ((decodeDigits ip : ℚ) + (decodeDigits fp : ℚ) / (10 : ℚ) ^ fp.length)
    else none
  | [] => if ip = [] then none else some (decodeDigits ip : ℚ)
  | _ => none

/-- `pd.to_numeric(errors='coerce')` on a string cell (returns `none` for
`NaN`); exponent notation is outside the model. -/
def parseNumStr (s : String) : Option ℚ :=
  match stripWS s.toList with
  | [] => none
  | '-' :: rest => (parseUnsigned rest).map (fun q => -q)
  | '+' :: rest => parseUnsigned rest
  | t => parseUnsigned t

/-- `pd.to_numeric(errors='coerce')` on one cell: numbers pass through,
numeric strings are parsed, everything else coerces to `NaN` (`none`). -/
def valueToNumeric : Value → Option ℚ
  | .int n => some (n : ℚ)
  | .float q => some q
  | .str s => parseNumStr s
  | .null => none

/-! ## Datasets

An uploaded survey dataset: a column list plus records, each an association
list from field name to cell value.  A key absent from a record is a missing
cell (`NaN`), as in a sparse pandas frame. -/

/-- One dataset record. -/
abbrev Record := List (String × Value)

/-- The tabular dataset consumed by the indicator engine. -/
structure Dataset where
  cols : List String
  rows : List Record
deriving Repr

/-- Look a field up in a record (`none` = missing cell). -/
def lookupField (r : Record) (c : String) : Option Value :=
  (r.find? (fun p => p.1 == c)).map (fun p => p.2)

/-- The cell at a column, with missing keys read as `NaN`. -/
def getCell (r : Record) (c : String) : Value :=
  (lookupField r c).getD .null

/-- `df[col].count()`: number of non-null entries. -/
def colCount (df : Dataset) (c : String) : Nat :=
  (df.rows.filter (fun r => getCell r c ≠ .null)).length

/-- The numeric coercions of a column, `NaN`s dropped, in row order
(`pd.to_numeric(df[col], errors='coerce')` with `skipna`). -/
def colNumeric (df : Dataset) (c : String) : List ℚ :=
  df.rows.filterMap (fun r => valueToNumeric (getCell r c))

/-- `pd.to_numeric(df[col], errors='coerce').sum()` — `0` when empty. -/
def colSum (df : Dataset) (c : String) : ℚ :=
  (colNumeric df c).sum

/-- `….mean()` — `NaN` (`none`) when no numeric value survives coercion. -/
def colMean (df : Dataset) (c : String) : Option ℚ :=
  match colNumeric df c with
  | [] => none
  | l => some (l.sum / (l.length : ℚ))

/-- `….min()` — `NaN` (`none`) when empty. -/
def colMin (df : Dataset) (c : String) : Option ℚ :=
  (colNumeric df c).min?

/-- `….max()` — `NaN` (`none`) when empty. -/
def colMax (df : Dataset) (c : String) : Option ℚ :=
  (colNumeric df c).max?

/-! ## The formula scanners

`_evaluate_formula` finds function calls with
`re.finditer(FN + r'\((' + r'[\w\s\-\.]+' + r')\)', s, re.IGNORECASE)` and
replaces each match text with the computed value via `str.replace`. -/

/-- A character of the field-name class `[\w\s\-\.]` (ASCII reading of `\w`). -/
def isClassChar (c : Char) : Bool :=
  c.isAlphanum || c = '_' || c.isWhitespace || c = '-' || c = '.'

/-- Strip a pattern prefix case-insensitively; `some rest` on success. -/
def stripCI : List Char → List Char → Option (List Char)
  | [], s => some s
  | _ :: _, [] => none
  | p :: ps, c :: cs => if p.toLower = c.toLower then stripCI ps cs else none

/-- One regex match of `FN\(([\w\s\-\.]+)\)`: the full match text, the field
group, and the remainder of the subject after the match. -/
structure FnMatch where
  g0 : List Char
  g1 : List Char
  rest : List Char
deriving DecidableEq, Repr

/-- Try to match `FN\(([\w\s\-\.]+)\)` (case-insensitive) at the start of
`s`: the greedy class run must be nonempty and be followed by `)`. -/
def tryMatch (fn : List Char) (s : List Char) : Option FnMatch :=
  match stripCI (fn ++ ['(']) s with
  | none => none
  | some s1 =>
    let run := s1.takeWhile isClassChar
    if run = [] then none
    else
      let r1 := s1.drop run.length
      if r1.head? = some ')' then
        some ⟨s.take (fn.length + 1 + run.length + 1), run, r1.tail⟩
      else none

/-- All matches of the pattern in the subject, leftmost first, scanning past
each match (`re.finditer` semantics); fuel-driven, `s.length` suffices. -/
def findCallsF (fn : List Char) : Nat → List Char → List (List Char × List Char)
  | _, [] => []
  | 0, _ :: _ => []
  | fuel + 1, c :: rest =>
    match tryMatch fn (c :: rest) with
    | some m => (m.g0, m.g1) :: findCallsF fn fuel m.rest
    | none => findCallsF fn fuel rest

/-- `re.finditer` for one aggregate-function pattern over the whole subject. -/
def findCalls (fn : List Char) (s : List Char) : List (List Char × List Char) :=
  findCallsF fn (s.length + 1) s

/-- `str.replace(pat, rep)`: replace every occurrence, scanning left to
right; fuel-driven, `s.length` suffices. -/
def replaceAllF (pat rep : List Char) : Nat → List Char → List Char
  | _, [] => []
  | 0, s => s
  | fuel + 1, c :: rest =>
    if pat ≠ [] ∧ pat.isPrefixOf (c :: rest) then
      rep ++ replaceAllF pat rep fuel ((c :: rest).drop pat.length)
    else
      c :: replaceAllF pat rep fuel rest

/-- `str.replace(pat, rep)` (all occurrences). -/
def replaceAll (s pat rep : List Char) : List Char :=
  replaceAllF pat rep (s.length + 1) s

/-- The body of the second-argument parse of the `PERCENTAGE` pattern: the
lazy group (shortest nonempty run of non-`)` characters such that an
optional trailing quote is followed by `)`), equivalently the maximal
non-`)` run with one trailing quote character removed.  Returns the group-2
text and the number of characters consumed (through the closing
parenthesis). -/
def pctCore (t : List Char) : Option (List Char × Nat) :=
  let chunk := t.takeWhile (fun c => decide (¬ c = ')'))
  if (t.drop chunk.length).head? = some ')' then
    if chunk = [] then none
    else if 2 ≤ chunk.length ∧ isQuote (chunk.getLast?.getD ' ') then
      some (chunk.dropLast, chunk.length + 1)
    else some (chunk, chunk.length + 1)
  else none

/-- The second-argument parse of the `PERCENTAGE` pattern after the comma
and the whitespace run, handling the optional opening quote (with the
backtracking case in which the quote character itself feeds the lazy
group). -/
def pctLit (s : List Char) : Option (List Char × Nat) :=
  match s with
  | [] => none
  | q :: rest =>
    if isQuote q then
      match pctCore rest with
      | some (g2, n) => some (g2, n + 1)
      | none => if rest.head? = some ')' then some ([q], 2) else none
    else pctCore s

/-- One match of the `PERCENTAGE` pattern. -/
structure PctMatch where
  g0 : List Char
  g1 : List Char
  g2 : List Char
  rest : List Char
deriving DecidableEq, Repr

/-- The characters of `PERCENTAGE(`. -/
def pctHead : List Char :=
  ['P', 'E', 'R', 'C', 'E', 'N', 'T', 'A', 'G', 'E', '(']

/-- Try to match the `PERCENTAGE` pattern at the start of `s`. -/
def tryMatchPct (s : List Char) : Option PctMatch :=
  match stripCI pctHead s with
  | none => none
  | some s1 =>
    let fld := s1.takeWhile isClassChar
    if fld = [] then none
    else
      if (s1.drop fld.length).head? = some ',' then
        let s2 := (s1.drop fld.length).tail
        let ws := s2.takeWhile isSpace
        match pctLit (s2.drop ws.length) with
        | some (g2, n) =>
          let total := pctHead.length + fld.length + 1 + ws.length + n
          some ⟨s.take total, fld, g2, s.drop total⟩
        | none => none
      else none

/-- All `PERCENTAGE` matches, leftmost first, scanning past each match. -/
def findPctCallsF : Nat → List Char → List PctMatch
  | _, [] => []
  | 0, _ :: _ => []
  | fuel + 1, c :: rest =>
    match tryMatchPct (c :: rest) with
    | some m => m :: findPctCallsF fuel m.rest
    | none => findPctCallsF fuel rest

/-- `re.finditer` for the `PERCENTAGE` pattern over the whole subject. -/
def findPctCalls (s : List Char) : List PctMatch :=
  findPctCallsF (s.length + 1) s

/-! ## The residual arithmetic evaluator

After substitution the string is handed to `eval`.  The model evaluates the
restricted arithmetic grammar `+ - * / ( )` over numeric literals; any other
content is an evaluation error (as `eval` raises), and so is division by
zero (`ZeroDivisionError`). -/

/-- A token of the residual arithmetic expression. -/
inductive Tok where
  | num (q : ℚ)
  | add | sub | mul | div | lp | rp
deriving DecidableEq, Repr

/-- Tokenize the residual string; fuel-driven, `s.length` suffices.
`none` signals a character no arithmetic expression can contain. -/
def tokenizeF : Nat → List Char → Option (List Tok)
  | _, [] => some []
  | 0, _ :: _ => none
  | fuel + 1, c :: rest =>
    if isSpace c then tokenizeF fuel rest
    else if c.isDigit then
      let ip := rest.takeWhile Char.isDigit
      let r1 := rest.drop ip.length
      if r1.head? = some '.' then
        let r2 := r1.tail
        let fp := r2.takeWhile Char.isDigit
        let r3 := r2.drop fp.length
        (tokenizeF fuel r3).map
          (fun ts => Tok.num ((decodeDigits (c :: ip) : ℚ) +
            (decodeDigits fp : ℚ) / (10 : ℚ) ^ fp.length) :: ts)
      else
        (tokenizeF fuel r1).map (fun ts => Tok.num (decodeDigits (c :: ip) : ℚ) :: ts)
    else if c = '+' then (tokenizeF fuel rest).map (Tok.add :: ·)
    else if c = '-' then (tokenizeF fuel rest).map (Tok.sub :: ·)
    else if c = '*' then (tokenizeF fuel rest).map (Tok.mul :: ·)
    else if c = '/' then (tokenizeF fuel rest).map (Tok.div :: ·)
    else if c = '(' then (tokenizeF fuel rest).map (Tok.lp :: ·)
    else if c = ')' then (tokenizeF fuel rest).map (Tok.rp :: ·)
    else none

/-- Tokenize the residual string. -/
def tokenize (s : List Char) : Option (List Tok) :=
  tokenizeF (s.length + 1) s

mutual

/-- Parse and evaluate a `+`/`-` chain. -/
def parseExpr : Nat → List Tok → Except String (ℚ × List Tok)
  | 0, _ => .error "expression too deep"
  | fuel + 1, ts =>
    match parseTerm fuel ts with
    | .error e => .error e
    | .ok (v, rest) => parseExprRest fuel v rest

/-- Continue a `+`/`-` chain after a parsed term. -/
def parseExprRest : Nat → ℚ → List Tok → Except String (ℚ × List Tok)
  | 0, _, _ => .error "expression too deep"
  | fuel + 1, acc, ts =>
    match ts with
    | .add :: rest =>
      match parseTerm fuel rest with
      | .error e => .error e
      | .ok (v, rest') => parseExprRest fuel (acc + v) rest'
    | .sub :: rest =>
      match parseTerm fuel rest with
      | .error e => .error e
      | .ok (v, rest') => parseExprRest fuel (acc - v) rest'
    | _ => .ok (acc, ts)

/-- Parse and evaluate a `*`/`/` chain. -/
def parseTerm : Nat → List Tok → Except String (ℚ × List Tok)
  | 0, _ => .error "expression too deep"
  | fuel + 1, ts =>
    match parseFactor fuel ts with
    | .error e => .error e
    | .ok (v, rest) => parseTermRest fuel v rest

/-- Continue a `*`/`/` chain after a parsed factor. -/
def parseTermRest : Nat → ℚ → List Tok → Except String (ℚ × List Tok)
  | 0, _, _ => .error "expression too deep"
  | fuel + 1, acc, ts =>
    match ts with
    | .mul :: rest =>
      match parseFactor fuel rest with
      | .error e => .error e
      | .ok (v, rest') => parseTermRest fuel (acc * v) rest'
    | .div :: rest =>
      match parseFactor fuel rest with
      | .error e => .error e
      | .ok (v, rest') =>
        if v = 0 then .error "division by zero"
        else parseTermRest fuel (acc / v) rest'
    | _ => .ok (acc, ts)

/-- Parse a factor: a numeric literal, a unary sign, or a parenthesised
subexpression. -/
def parseFactor : Nat → List Tok → Except String (ℚ × List Tok)
  | 0, _ => .error "expression too deep"
  | fuel + 1, ts =>
    match ts with
    | .num q :: rest => .ok (q, rest)
    | .sub :: rest =>
      match parseFactor fuel rest with
      | .error e => .error e
      | .ok (v, rest') => .ok (-v, rest')
    | .add :: rest => parseFactor fuel rest
    | .lp :: rest =>
      match parseExpr fuel rest with
      | .error e => .error e
      | .ok (v, rest') =>
        match rest' with
        | .rp :: rest'' => .ok (v, rest'')
        | _ => .error "invalid syntax"
    | _ => .error "invalid syntax"

end

/-- `eval` of the residual string: tokenize, parse, require full consumption. -/
def evalResidual (s : List Char) : Except String ℚ :=
  match tokenize s with
  | none => .error "invalid syntax"
  | some [] => .error "invalid syntax"
  | some ts =>
    match parseExpr (2 * ts.length + 1) ts with
    | .error e => .error e
    | .ok (v, []) => .ok v
    | .ok (_, _ :: _) => .error "invalid syntax"

/-! ## Formula evaluation (`IndicatorComputationService._evaluate_formula`) -/

/-- The five aggregate functions with a single field argument. -/
inductive AggFn where
  | COUNT | SUM | AVG | MIN | MAX
deriving DecidableEq, Repr

/-- The pattern name of an aggregate function. -/
def fnChars : AggFn → List Char
  | .COUNT => ['C', 'O', 'U', 'N', 'T']
  | .SUM => ['S', 'U', 'M']
  | .AVG => ['A', 'V', 'G']
  | .MIN => ['M', 'I', 'N']
  | .MAX => ['M', 'A', 'X']

/-- The substitution text for one aggregate call on a column known to exist:
`str()` of the computed value (`count` is an int; the rest are floats, with
`NaN` rendering as the bare word `"nan"`). -/
def substChars (fn : AggFn) (df : Dataset) (col : String) : List Char :=
  match fn with
  | .COUNT => natChars (colCount df col)
  | .SUM => floatChars (colSum df col)
  | .AVG => (colMean df col).elim ['n', 'a', 'n'] floatChars
  | .MIN => (colMin df col).elim ['n', 'a', 'n'] floatChars
  | .MAX => (colMax df col).elim ['n', 'a', 'n'] floatChars

/-- The error message for a reference to a column the dataset lacks. -/
def colNotFound (col : String) (cols : List String) : String :=
  "Column '" ++ col ++ "' not found in survey data. Available columns: " ++
    String.intercalate ", " cols

/-- One `for match in re.finditer(...)` loop of `_evaluate_formula` for an
aggregate function: matches are found on the stage-entry string, then each
match text is replaced (all occurrences) in the current string, or a
`ValueError` is raised for an unknown column. -/
def applyAggStage (fn : AggFn) (df : Dataset) (s : List Char) :
    Except String (List Char) :=
  (findCalls (fnChars fn) s).foldl
    (fun acc m =>
      match acc with
      | .error e => .error e
      | .ok cur =>
        let col := String.mk (stripWS m.2)
        if col ∈ df.cols then .ok (replaceAll cur m.1 (substChars fn df col))
        else .error (colNotFound col df.cols))
    (.ok s)

/-- The `PERCENTAGE` loop: the second group is stripped of whitespace and
quotes, the count compares `astype(str)` cell text with the literal text,
and an empty dataset substitutes the int `0`. -/
def applyPctStage (df : Dataset) (s : List Char) : Except String (List Char) :=
  (findPctCalls s).foldl
    (fun acc m =>
      match acc with
      | .error e => .error e
      | .ok cur =>
        let col := String.mk (stripWS m.g1)
        let lit := stripQuotes (stripWS m.g2)
        if col ∈ df.cols then
          let cnt := (df.rows.filter (fun r => cellChars (getCell r col) = lit)).length
          let sub :=
            if df.rows.length = 0 then ['0']
            else floatChars ((cnt : ℚ) / (df.rows.length : ℚ) * 100)
          .ok (replaceAll cur m.g0 sub)
        else .error (colNotFound col df.cols))
    (.ok s)

/-- `_evaluate_formula`: substitute the six function kinds in source order
(`COUNT`, `SUM`, `AVG`, `MIN`, `MAX`, `PERCENTAGE`), then evaluate the
residual arithmetic string; evaluation failures are wrapped in the
`Could not evaluate formula` message. -/
def evaluateFormula (formula : String) (df : Dataset) : Except String ℚ :=
  match applyAggStage .COUNT df formula.toList with
  | .error e => .error e
  | .ok s1 =>
  match applyAggStage .SUM df s1 with
  | .error e => .error e
  | .ok s2 =>
  match applyAggStage .AVG df s2 with
  | .error e => .error e
  | .ok s3 =>
  match applyAggStage .MIN df s3 with
  | .error e => .error e
  | .ok s4 =>
  match applyAggStage .MAX df s4 with
  | .error e => .error e
  | .ok s5 =>
  match applyPctStage df s5 with
  | .error e => .error e
  | .ok s6 =>
  match evalResidual s6 with
  | .ok v => .ok v
  | .error e =>
    .error ("Could not evaluate formula: " ++ formula ++ ". Evaluation error: " ++ e)

/-! ## Filtering and indicator computation
(`IndicatorComputationService.compute_indicator`) -/

/-- The filter loop of `compute_indicator`: for each criteria pair whose
field is a dataset column, keep the rows whose cell compares `==` to the
value; criteria fields absent from the schema are skipped.  The input
dataset value is untouched (`self.df.copy()` in the source). -/
def applyFilterCriteria (df : Dataset) (criteria : List (String × Value)) : Dataset :=
  { cols := df.cols
    rows := criteria.foldl
      (fun rows cv =>
        if cv.1 ∈ df.cols then rows.filter (fun r => pyEq (getCell r cv.1) cv.2)
        else rows)
      df.rows }

/-- The result dictionary of `compute_indicator`.  The success and error
branches of the source build dictionaries with different key sets, so the
keys present only on one branch are `Option`s: `rows_processed`/`total_rows`
are `none` exactly when the source dictionary lacks those keys. -/
structure ComputationResult where
  indicator_name : String
  formula : String
  filter_criteria : List (String × Value)
  value : Option ℚ
  rows_processed : Option Nat
  total_rows : Option Nat
  status : String
  error : Option String
deriving DecidableEq, Repr

/-- `compute_indicator`: filter, evaluate, and wrap every failure into a
`status="error"` result (`try/except Exception`); the `NaN`/`Inf` guard of
the source is identically false over exact rationals, so a successful
evaluation always carries its value.  `total_rows` is the unfiltered length
captured at service construction. -/
def computeIndicator (df : Dataset) (name formula : String)
    (criteria : List (String × Value)) : ComputationResult :=
  let filtered := applyFilterCriteria df criteria
  match evaluateFormula formula filtered with
  | .ok v =>
    { indicator_name := name
      formula := formula
      filter_criteria := criteria
      value := some v
      rows_processed := some filtered.rows.length
      total_rows := some df.rows.length
      status := "success"
      error := none }
  | .error e =>
    { indicator_name := name
      formula := formula
      filter_criteria := criteria
      value := none
      rows_processed := none
      total_rows := none
      status := "error"
      error := some e }

/-- One indicator definition for a batch call. -/
structure IndicatorDef where
  name : String
  formula : String
  filter_criteria : List (String × Value)
deriving DecidableEq, Repr

/-- `compute_multiple_indicators`: one result per definition, in order. -/
def computeMultipleIndicators (df : Dataset) (inds : List IndicatorDef) :
    List ComputationResult :=
  inds.map (fun i => computeIndicator df i.name i.formula i.filter_criteria)

/-! ## Dimension aggregation (`AnalyticsEngine._aggregate_data`) -/

/-- One record fetched for a visualization: the dictionary produced by
`query.values('indicator__name', 'indicator_id', 'value', ...)`.  The
`value` key always maps to the `IndicatorValue.value` float; the remaining
keys are the association list `attrs`. -/
structure AggRecord where
  value : ℚ
  attrs : List (String × Value)
deriving DecidableEq, Repr

/-- `item.get(dim)` on such a dictionary. -/
def aggGet (r : AggRecord) (dim : String) : Option Value :=
  if dim = "value" then some (.float r.value)
  else (r.attrs.find? (fun p => p.1 == dim)).map (fun p => p.2)

/-- `_get_dimension_key`: `"_".join(str(item.get(dim, '')) for dim in dims)`.
A key the record lacks contributes `str('') = ""`; a key present with value
`None` contributes `str(None) = "None"`. -/
def getDimensionKey (r : AggRecord) (dims : List String) : List Char :=
  List.intercalate ['_'] (dims.map (fun d => ((aggGet r d).map pyChars).getD []))

/-- The `layout` configuration consumed by `_aggregate_data`
(`layout.get('rows', [])` / `layout.get('columns', [])`). -/
structure Layout where
  rows : List String
  columns : List String
deriving DecidableEq, Repr

/-- One cell of the aggregation accumulator: the `row`/`column` labels are
set by the first record that creates the cell; `values` accumulates in
arrival order. -/
structure AggCell where
  row : List Char
  column : List Char
  values : List ℚ
deriving DecidableEq, Repr

/-- The cell key of one record under a layout: `f"{row_key}_{col_key}"`. -/
def cellKey (layout : Layout) (r : AggRecord) : List Char :=
  getDimensionKey r layout.rows ++ '_' :: getDimensionKey r layout.columns

/-- Append a value to the cell at `key`, in place. -/
def pushValue (acc : List (List Char × AggCell)) (key : List Char) (v : ℚ) :
    List (List Char × AggCell) :=
  acc.map (fun p => if p.1 = key then (p.1, { p.2 with values := p.2.values ++ [v] }) else p)

/-- The grouping loop body of `_aggregate_data` for one record. -/
def insertRecord (layout : Layout) (acc : List (List Char × AggCell)) (r : AggRecord) :
    List (List Char × AggCell) :=
  let key := cellKey layout r
  let acc' :=
    if acc.any (fun p => p.1 = key) then acc
    else acc ++ [(key, { row := getDimensionKey r layout.rows
                         column := getDimensionKey r layout.columns
                         values := [] })]
  pushValue acc' key r.value

/-- One finished cell with the aggregates added after grouping. -/
structure AggCellOut where
  row : List Char
  column : List Char
  values : List ℚ
  sum : ℚ
  avg : ℚ
  count : Nat
deriving DecidableEq, Repr

/-- The post-pass of `_aggregate_data`: `sum`, `avg` (0 for an empty value
list), `count`. -/
def finishCell (c : AggCell) : AggCellOut :=
  { row := c.row
    column := c.column
    values := c.values
    sum := c.values.sum
    avg := if c.values ≠ [] then c.values.sum / (c.values.length : ℚ) else 0
    count := c.values.length }

/-- `_aggregate_data`: the empty input short-circuits to an empty mapping;
otherwise records are grouped by cell key (a Python dict preserves insertion
order, modelled by an association list) and the aggregates are computed. -/
def aggregateData (data : List AggRecord) (layout : Layout) :
    List (List Char × AggCellOut) :=
  match data with
  | [] => []
  | _ =>
    (data.foldl (insertRecord layout) []).map (fun p => (p.1, finishCell p.2))

/-! ## The analytics cache
(`AnalyticsEngine._get_from_cache` / `_save_to_cache`, `AnalyticsCache`) -/

mutual
/-- A JSON value as stored in the `JSONField` columns of the models.  Objects
are association lists; a Python dict is represented by its key-sorted,
duplicate-free association list (the canonical form `json.dumps(...,
sort_keys=True)` serializes). -/
inductive Json where
  | null : Json
  | bool (b : Bool) : Json
  | num (n : Int) : Json
  | str (s : String) : Json
  | arr (xs : JsonList) : Json
  | obj (kvs : JsonFields) : Json

inductive JsonList where
  | nil : JsonList
  | cons (hd : Json) (tl : JsonList) : JsonList

inductive JsonFields where
  | nil : JsonFields
  | cons (k : String) (v : Json) (tl : JsonFields) : JsonFields
end

/-- One row of the `AnalyticsCache` table. -/
structure CacheRow where
  cache_key : String
  project_id : Int
  visualization_id : Option Int
  data : Json
  expires_at : Nat
  hit_count : Nat

/-- The cache table: rows in creation order; the `unique=True` constraint on
`cache_key` is the invariant `cacheKeysUnique`. -/
abbrev CacheStore := List CacheRow

/-- The `cache_key` uniqueness constraint of the `AnalyticsCache` model. -/
def cacheKeysUnique (store : CacheStore) : Prop :=
  (store.map (fun r => r.cache_key)).Nodup

/-- The lookup filter of `_get_from_cache`:
`objects.get(cache_key=..., expires_at__gt=now)`. -/
def liveRow (key : String) (now : Nat) (r : CacheRow) : Bool :=
  r.cache_key == key && decide (now < r.expires_at)

/-- `cache.hit_count += 1; cache.save()` applied to the first matching row. -/
def bumpHit (key : String) (now : Nat) : CacheStore → CacheStore
  | [] => []
  | r :: rest =>
    if liveRow key now r then { r with hit_count := r.hit_count + 1 } :: rest
    else r :: bumpHit key now rest

/-- `_get_from_cache`: return the data of the unexpired row for the key and
persist a `hit_count` increment; a missing or expired row
(`DoesNotExist`) returns nothing and leaves the store untouched. -/
def getFromCache (store : CacheStore) (key : String) (now : Nat) :
    Option Json × CacheStore :=
  match store.find? (liveRow key now) with
  | some r => (some r.data, bumpHit key now store)
  | none => (none, store)

/-- The fixed TTL of `_save_to_cache`, in hours (time is modelled in hours). -/
def cacheTTL : Nat := 24

/-- `update_or_create(cache_key=..., defaults=...)`: update the existing row
for the key in place (leaving `hit_count` as it was, since it is not among
the defaults), or append a fresh row with the model's default
`hit_count = 0`. -/
def upsertRow (store : CacheStore) (key : String) (projectId : Int)
    (vizId : Option Int) (data : Json) (now : Nat) : CacheStore :=
  if store.any (fun r => r.cache_key == key) then
    store.map (fun r =>
      if r.cache_key == key then
        { r with project_id := projectId, visualization_id := vizId,
                 data := data, expires_at := now + cacheTTL }
      else r)
  else
    store ++ [{ cache_key := key, project_id := projectId,
                visualization_id := vizId, data := data,
                expires_at := now + cacheTTL, hit_count := 0 }]

/-- `_save_to_cache`: a visualization without an `id` (an unsaved preview) is
never cached; otherwise upsert the row for the key with a fresh expiry. -/
def saveToCache (store : CacheStore) (key : String) (projectId : Int)
    (vizId : Option Int) (data : Json) (now : Nat) : CacheStore :=
  match vizId with
  | none => store
  | some _ => upsertRow store key projectId vizId data now

/-- One cache-store operation, for stating the uniqueness invariant over
arbitrary get/put histories. -/
inductive CacheOp where
  | get (key : String) (now : Nat)
  | put (key : String) (projectId : Int) (vizId : Option Int) (data : Json) (now : Nat)

/-- Run one operation against the store. -/
def applyCacheOp (store : CacheStore) : CacheOp → CacheStore
  | .get key now => (getFromCache store key now).2
  | .put key projectId vizId data now => saveToCache store key projectId vizId data now

/-- Run a history of operations left to right. -/
def applyCacheOps (store : CacheStore) (ops : List CacheOp) : CacheStore :=
  ops.foldl applyCacheOp store

/-! ## JSON serialization (`json.dumps(key_data, sort_keys=True)`)

`_generate_cache_key` hashes the key-sorted JSON dump of the key data with
md5.  The dump is embedded faithfully (default separators `", "`/`": "`,
string escaping of `"` and `\`; escaping of control characters is outside
the model); the md5 hexdigest is modelled as an injective function of the
dumped string, i.e. the fingerprint is identified with its preimage. -/

/-- JSON string escaping of `"` and `\`. -/
def escChars : List Char → List Char
  | [] => []
  | c :: rest =>
    if c = '"' ∨ c = '\\' then '\\' :: c :: escChars rest
    else c :: escChars rest

/-- A serialized JSON string literal. -/
def dumpStr (s : String) : List Char :=
  '"' :: escChars s.toList ++ ['"']

mutual

/-- `json.dumps` of one value (keys assumed already sorted, see `Json.obj`). -/
def dumpJson : Json → List Char
  | .null => ['n', 'u', 'l', 'l']
  | .bool b => if b then ['t', 'r', 'u', 'e'] else ['f', 'a', 'l', 's', 'e']
  | .num n => intChars n
  | .str s => dumpStr s
  | .arr xs => '[' :: dumpElems xs ++ [']']
  | .obj kvs => '{' :: dumpMembers kvs ++ ['}']

/-- The members of a serialized array, `", "`-separated. -/
def dumpElems : JsonList → List Char
  | .nil => []
  | .cons x tl => dumpJson x ++ dumpElemsRest tl

/-- The tail of a serialized array after its first member. -/
def dumpElemsRest : JsonList → List Char
  | .nil => []
  | .cons x tl => ',' :: ' ' :: dumpJson x ++ dumpElemsRest tl

/-- The members of a serialized object, `", "`-separated `"key": value`. -/
def dumpMembers : JsonFields → List Char
  | .nil => []
  | .cons k v tl => dumpStr k ++ ':' :: ' ' :: dumpJson v ++ dumpMembersRest tl

/-- The tail of a serialized object after its first member. -/
def dumpMembersRest : JsonFields → List Char
  | .nil => []
  | .cons k v tl => ',' :: ' ' :: dumpStr k ++ ':' :: ' ' :: dumpJson v ++ dumpMembersRest tl

end

/-! A deterministic parser that left-inverts `dumpJson`; it exists to prove
the serialization injective and need not accept non-canonical input. -/

/-- Parse the body of a string literal up to the unescaped closing quote. -/
def parseStrBody : List Char → Option (List Char × List Char)
  | [] => none
  | c :: rest =>
    if c = '"' then some ([], rest)
    else if c = '\\' then
      match rest with
      | [] => none
      | d :: rest' => (parseStrBody rest').map (fun p => (d :: p.1, p.2))
    else (parseStrBody rest).map (fun p => (c :: p.1, p.2))

/-- Match an exact character sequence, returning the remainder. -/
def expectChars : List Char → List Char → Option (List Char)
  | [], s => some s
  | _ :: _, [] => none
  | p :: ps, c :: cs => if p = c then expectChars ps cs else none

mutual

/-- Parse one serialized JSON value (fuel-driven; `sizeOf` suffices). -/
def parseJson : Nat → List Char → Option (Json × List Char)
  | 0, _ => none
  | _ + 1, [] => none
  | fuel + 1, c :: rest =>
    if c = 'n' then (expectChars ['u', 'l', 'l'] rest).map (fun r => (.null, r))
    else if c = 't' then (expectChars ['r', 'u', 'e'] rest).map (fun r => (.bool true, r))
    else if c = 'f' then (expectChars ['a', 'l', 's', 'e'] rest).map (fun r => (.bool false, r))
    else if c = '"' then
      (parseStrBody rest).map (fun p => (.str (String.mk p.1), p.2))
    else if c = '-' then
      let ds := rest.takeWhile Char.isDigit
      if ds = [] then none
      else some (.num (-(decodeDigits ds : Int)), rest.drop ds.length)
    else if c.isDigit then
      let ds := rest.takeWhile Char.isDigit
      some (.num (decodeDigits (c :: ds) : Int), rest.drop ds.length)
    else if c = '[' then (parseElems fuel rest).map (fun p => (.arr p.1, p.2))
    else if c = '{' then (parseMembers fuel rest).map (fun p => (.obj p.1, p.2))
    else none

/-- Parse the members of an array after `[`. -/
def parseElems : Nat → List Char → Option (JsonList × List Char)
  | 0, _ => none
  | _ + 1, [] => none
  | fuel + 1, c :: rest =>
    if c = ']' then some (.nil, rest)
    else
      match parseJson fuel (c :: rest) with
      | some (x, rest') =>
        (parseElemsRest fuel rest').map (fun p => (.cons x p.1, p.2))
      | none => none

/-- Parse the members of an array after a parsed member. -/
def parseElemsRest : Nat → List Char → Option (JsonList × List Char)
  | 0, _ => none
  | _ + 1, [] => none
  | fuel + 1, c :: rest =>
    if c = ']' then some (.nil, rest)
    else if c = ',' then
      match rest with
      | ' ' :: rest1 =>
        match parseJson fuel rest1 with
        | some (x, rest2) =>
          (parseElemsRest fuel rest2).map (fun p => (.cons x p.1, p.2))
        | none => none
      | _ => none
    else none

/-- Parse one `"key": value` member followed by the rest of the object. -/
def parseMember : Nat → List Char → Option (JsonFields × List Char)
  | 0, _ => none
  | fuel + 1, s =>
    match s with
    | '"' :: rest =>
      match parseStrBody rest with
      | some (kbody, rest1) =>
        match rest1 with
        | ':' :: ' ' :: rest2 =>
          match parseJson fuel rest2 with
          | some (v, rest3) =>
            (parseMembersRest fuel rest3).map
              (fun p => (.cons (String.mk kbody) v p.1, p.2))
          | none => none
        | _ => none
      | none => none
    | _ => none

/-- Parse the members of an object after `{`. -/
def parseMembers : Nat → List Char → Option (JsonFields × List Char)
  | 0, _ => none
  | _ + 1, [] => none
  | fuel + 1, c :: rest =>
    if c = '}' then some (.nil, rest)
    else parseMember (fuel + 1) (c :: rest)

/-- Parse the members of an object after a parsed member. -/
def parseMembersRest : Nat → List Char → Option (JsonFields × List Char)
  | 0, _ => none
  | _ + 1, [] => none
  | fuel + 1, c :: rest =>
    if c = '}' then some (.nil, rest)
    else if c = ',' then
      match rest with
      | ' ' :: rest1 => parseMember fuel rest1
      | _ => none
    else none

end

/-! ## Cache key generation (`AnalyticsEngine._generate_cache_key`) -/

/-- The `Visualization` model fields consumed by the analytics engine. -/
structure Visualization where
  id : Option Int
  dimensions : Json
  filters : Json
  layout : Json
  updated_at : Option String

/-- The `viz_id` component of the key data:
`visualization.id if ... else 'preview'`. -/
def vizIdComponent (v : Visualization) : Json :=
  match v.id with
  | some i => .num i
  | none => .str "preview"

/-- The `updated_at` component of the key data:
`visualization.updated_at.isoformat() if ... else 'preview'`. -/
def updatedAtComponent (v : Visualization) : Json :=
  match v.updated_at with
  | some u => .str u
  | none => .str "preview"

/-- The `key_data` dictionary in its canonical key-sorted form
(`dimensions < filters < updated_at < viz_id`); note that `layout` is not a
component. -/
def cacheKeyJson (v : Visualization) : Json :=
  .obj (.cons "dimensions" v.dimensions
    (.cons "filters" v.filters
      (.cons "updated_at" (updatedAtComponent v)
        (.cons "viz_id" (vizIdComponent v) .nil))))

/-- `_generate_cache_key`: the md5 hexdigest of
`json.dumps(key_data, sort_keys=True)`, with the hash modelled as injective
(the fingerprint is its preimage string). -/
def generateCacheKey (v : Visualization) : String :=
  String.mk (dumpJson (cacheKeyJson v))

/-! ## Canonical (key-sorted) JSON values

`json.dumps(..., sort_keys=True)` serializes every Python dict with sorted,
duplicate-free keys; a `Json` value represents a Python configuration value
faithfully exactly when its object key lists are strictly sorted. -/

mutual

/-- Every object in the value has strictly sorted keys. -/
def jsonCanonical : Json → Bool
  | .null => true
  | .bool _ => true
  | .num _ => true
  | .str _ => true
  | .arr xs => jsonListCanonical xs
  | .obj kvs => jsonFieldsCanonical kvs

/-- `jsonCanonical` over array members. -/
def jsonListCanonical : JsonList → Bool
  | .nil => true
  | .cons x tl => jsonCanonical x && jsonListCanonical tl

/-- `jsonCanonical` over object members, with strictly sorted keys. -/
def jsonFieldsCanonical : JsonFields → Bool
  | .nil => true
  | .cons _ v .nil => jsonCanonical v
  | .cons k v (.cons k' v' tl) =>
    decide (k < k') && jsonCanonical v && jsonFieldsCanonical (.cons k' v' tl)

end

/-- The continuation after a rendered number must not extend the numeral:
its first character is neither a digit nor a decimal point. -/
def nonNumStart (r : List Char) : Prop :=
  ∀ c, r.head? = some c → c.isDigit = false ∧ c ≠ '.'

/-- The continuation after a serialized JSON number must not extend it. -/
def nonDigitStart (r : List Char) : Prop :=
  ∀ c, r.head? = some c → c.isDigit = false

/-- A wellformed field-name occurrence for the formula patterns: nonempty,
within the `[\w\s\-\.]` class, and strip-fixed (no outer whitespace). -/
def fieldOk (f : List Char) : Prop :=
  f ≠ [] ∧ (∀ c ∈ f, isClassChar c = true) ∧ stripWS f = f

instance : DecidableEq (Except String ℚ) := fun a b =>
  match a, b with
  | .ok x, .ok y =>
    if h : x = y then .isTrue (by rw [h]) else .isFalse (by intro hh; cases hh; exact h rfl)
  | .error e, .error e' =>
    if h : e = e' then .isTrue (by rw [h]) else .isFalse (by intro hh; cases hh; exact h rfl)
  | .ok _, .error _ => .isFalse (by intro hh; cases hh)
  | .error _, .ok _ => .isFalse (by intro hh; cases hh)

mutual

/-- A structural fuel measure for the JSON parser: `parseJson (jsonDepth v)`
suffices to read back `dumpJson v`. -/
def jsonDepth : Json → Nat
  | .null => 1
  | .bool _ => 1
  | .num _ => 1
  | .str _ => 1
  | .arr xs => jsonListDepth xs + 1
  | .obj kvs => jsonFieldsDepth kvs + 1

def jsonListDepth : JsonList → Nat
  | .nil => 1
  | .cons x tl => jsonDepth x + jsonListDepth tl + 1

def jsonFieldsDepth : JsonFields → Nat
  | .nil => 1
  | .cons _ v tl => jsonDepth v + jsonFieldsDepth tl + 1

end

/-! # Lemmas and theorems -/

/-! ## Decimal rendering -/

theorem digitChar_isDigit (d : Nat) (hd : d < 10) : (digitChar d).isDigit = true := by
  interval_cases d <;> decide

theorem digitVal_digitChar (d : Nat) (hd : d < 10) : digitVal (digitChar d) = d := by
  interval_cases d <;> decide

theorem natCharsAux_fuel (n f1 f2 : Nat) (h1 : n < f1) (h2 : n < f2) :
    natCharsAux f1 n = natCharsAux f2 n := by
  induction n using Nat.strong_induction_on generalizing f1 f2 with
  | _ n ih =>
    cases f1 with
    | zero => omega
    | succ g1 =>
      cases f2 with
      | zero => omega
      | succ g2 =>
        unfold natCharsAux
        by_cases h10 : n < 10
        · simp [h10]
        · simp only [h10, if_false]
          rw [ih (n / 10) (by omega) g1 g2 (by omega) (by omega)]

theorem natChars_eq (n : Nat) :
    natChars n = if n < 10 then [digitChar n]
      else natChars (n / 10) ++ [digitChar (n % 10)] := by
  unfold natChars natCharsAux
  by_cases h10 : n < 10
  · simp [h10]
  · simp only [h10, if_false]
    rw [natCharsAux_fuel (n / 10) n (n / 10 + 1) (by omega) (by omega)]
    rfl

theorem natChars_ne_nil (n : Nat) : natChars n ≠ [] := by
  rw [natChars_eq]
  by_cases h10 : n < 10 <;> simp [h10]

theorem natChars_digits (n : Nat) : ∀ c ∈ natChars n, c.isDigit = true := by
  induction n using Nat.strong_induction_on with
  | _ n ih =>
    rw [natChars_eq]
    by_cases h10 : n < 10
    · simp [h10, digitChar_isDigit n h10]
    · simp only [h10, if_false]
      intro c hc
      rcases List.mem_append.mp hc with h | h
      · exact ih (n / 10) (by omega) c h
      · rcases List.mem_singleton.mp h with rfl
        exact digitChar_isDigit _ (by omega)

theorem decodeDigits_append (xs : List Char) (c : Char) :
    decodeDigits (xs ++ [c]) = 10 * decodeDigits xs + digitVal c := by
  simp [decodeDigits, List.foldl_append]
  ring

theorem decodeDigits_natChars (n : Nat) : decodeDigits (natChars n) = n := by
  induction n using Nat.strong_induction_on with
  | _ n ih =>
    rw [natChars_eq]
    by_cases h10 : n < 10
    · simp [h10, decodeDigits, digitVal_digitChar n h10]
    · simp only [h10, if_false]
      rw [decodeDigits_append, ih (n / 10) (by omega), digitVal_digitChar _ (by omega)]
      omega

theorem natChars_inj {m n : Nat} (h : natChars m = natChars n) : m = n := by
  have := decodeDigits_natChars m
  rw [h, decodeDigits_natChars] at this
  omega

/-! ## Character facts -/

theorem char_toNat_inj {c d : Char} (h : c.toNat = d.toNat) : c = d := by
  have hc := Char.ofNat_toNat c
  rw [h] at hc
  rw [← hc, Char.ofNat_toNat]

theorem isDigit_iff {c : Char} : c.isDigit = true ↔ 48 ≤ c.toNat ∧ c.toNat ≤ 57 := by
  simp [Char.isDigit, UInt32.le_def, BitVec.le_def, Char.toNat, UInt32.toNat]

theorem char_toNat_ofNat {n : Nat} (h : n.isValidChar) : (Char.ofNat n).toNat = n := by
  rw [Char.ofNat, dif_pos h]
  rfl

theorem toLower_shift (c : Char) :
    (65 ≤ c.toNat ∧ c.toNat ≤ 90 ∧ (c.toLower).toNat = c.toNat + 32) ∨
    ((¬ (65 ≤ c.toNat ∧ c.toNat ≤ 90)) ∧ c.toLower = c) := by
  unfold Char.toLower
  by_cases h : 65 ≤ c.toNat ∧ c.toNat ≤ 90
  · left
    refine ⟨h.1, h.2, ?_⟩
    rw [if_pos (by omega), char_toNat_ofNat]
    left
    omega
  · right
    exact ⟨h, by rw [if_neg (by omega)]⟩

theorem toLower_eq_lparen {c : Char} (h : c.toLower = '(') : c = '(' := by
  rcases toLower_shift c with ⟨h1, _, h3⟩ | ⟨_, h2⟩
  · rw [h] at h3
    have h40 : ('(').toNat = 40 := by decide
    omega
  · exact h2.symm.trans h

theorem isDigit_not_space {c : Char} (h : c.isDigit = true) : isSpace c = false := by
  rw [isDigit_iff] at h
  simp only [isSpace, Char.isWhitespace]
  have h1 : c ≠ ' ' := by intro hh; subst hh; revert h; decide
  have h2 : c ≠ '\t' := by intro hh; subst hh; revert h; decide
  have h3 : c ≠ '\r' := by intro hh; subst hh; revert h; decide
  have h4 : c ≠ '\n' := by intro hh; subst hh; revert h; decide
  simp [h1, h2, h3, h4]

theorem isDigit_ne {c : Char} (h : c.isDigit = true) {d : Char}
    (hd : d.isDigit = false) : c ≠ d := by
  intro hh
  subst hh
  rw [h] at hd
  cases hd

/-! ## List scanning helpers -/

theorem takeWhile_nil_of_head {p : Char → Bool} {rest : List Char}
    (h : ∀ c, rest.head? = some c → p c = false) : rest.takeWhile p = [] := by
  cases rest with
  | nil => rfl
  | cons r tl =>
    rw [List.takeWhile_cons, h r rfl]
    simp

theorem takeWhile_run {p : Char → Bool} {ds rest : List Char}
    (hds : ∀ c ∈ ds, p c = true) (h : ∀ c, rest.head? = some c → p c = false) :
    (ds ++ rest).takeWhile p = ds := by
  rw [List.takeWhile_append_of_pos hds, takeWhile_nil_of_head h, List.append_nil]

theorem drop_run {ds rest : List Char} :
    (ds ++ rest).drop ds.length = rest :=
  List.drop_left ds rest

/-! ## Tokenizer lemmas -/


/-! ## Tokenizer lemmas -/

theorem tokenizeF_fuel_aux (n : Nat) : ∀ (s : List Char), s.length ≤ n →
    ∀ f1 f2, s.length < f1 → s.length < f2 → tokenizeF f1 s = tokenizeF f2 s := by
  induction n with
  | zero =>
    intro s hs f1 f2 h1 h2
    have h0 : s.length = 0 := Nat.le_zero.mp hs
    rw [List.length_eq_zero] at h0
    subst h0
    cases f1 <;> cases f2 <;> rfl
  | succ n ih =>
    intro s hs f1 f2 h1 h2
    cases s with
    | nil => cases f1 <;> cases f2 <;> rfl
    | cons c rest =>
      cases f1 with
      | zero => simp at h1
      | succ g1 =>
        cases f2 with
        | zero => simp at h2
        | succ g2 =>
          simp only [List.length_cons] at h1 h2 hs
          simp only [tokenizeF]
          have hrl : rest.length ≤ n := by omega
          by_cases hsp : isSpace c = true
          · rw [if_pos hsp, if_pos hsp]
            exact ih rest hrl g1 g2 (by omega) (by omega)
          · rw [if_neg hsp, if_neg hsp]
            by_cases hdig : c.isDigit = true
            · rw [if_pos hdig, if_pos hdig]
              have hr1len : (rest.drop (rest.takeWhile Char.isDigit).length).length ≤ rest.length := by
                rw [List.length_drop]; omega
              by_cases hdot : (rest.drop (rest.takeWhile Char.isDigit).length).head? = some '.'
              · rw [if_pos hdot, if_pos hdot]
                have htlen : (rest.drop (rest.takeWhile Char.isDigit).length).tail.length ≤ rest.length := by
                  rw [List.length_tail]; omega
                have hlen3 : ((rest.drop (rest.takeWhile Char.isDigit).length).tail.drop
                      ((rest.drop (rest.takeWhile Char.isDigit).length).tail.takeWhile Char.isDigit).length).length
                    ≤ rest.length := by
                  rw [List.length_drop]; omega
                rw [ih _ (by omega) g1 g2 (by omega) (by omega)]
              · rw [if_neg hdot, if_neg hdot]
                rw [ih _ (by omega) g1 g2 (by omega) (by omega)]
            · rw [if_neg hdig, if_neg hdig]
              have hrec := ih rest hrl g1 g2 (by omega) (by omega)
              by_cases hc1 : c = '+'
              · simp [hc1, hrec]
              · by_cases hc2 : c = '-'
                · simp [hc1, hc2, hrec]
                · by_cases hc3 : c = '*'
                  · simp [hc1, hc2, hc3, hrec]
                  · by_cases hc4 : c = '/'
                    · simp [hc1, hc2, hc3, hc4, hrec]
                    · by_cases hc5 : c = '('
                      · simp [hc1, hc2, hc3, hc4, hc5, hrec]
                      · by_cases hc6 : c = ')'
                        · simp [hc1, hc2, hc3, hc4, hc5, hc6, hrec]
                        · simp [hc1, hc2, hc3, hc4, hc5, hc6]

theorem tokenizeF_fuel (s : List Char) (f1 f2 : Nat) (h1 : s.length < f1)
    (h2 : s.length < f2) : tokenizeF f1 s = tokenizeF f2 s :=
  tokenizeF_fuel_aux s.length s le_rfl f1 f2 h1 h2

theorem head_not_dot {rest : List Char} (hr : nonNumStart rest) :
    ¬ rest.head? = some '.' := by
  intro h
  cases rest with
  | nil => cases h
  | cons r0 tl =>
    have := hr r0 rfl
    simp at h
    exact this.2 h

theorem head_not_digit {rest : List Char} (hr : nonNumStart rest) :
    ∀ c, rest.head? = some c → Char.isDigit c = false := by
  intro c h
  exact (hr c h).1

theorem tokenize_digits (ds rest : List Char) (hne : ds ≠ [])
    (hdig : ∀ c ∈ ds, c.isDigit = true) (hr : nonNumStart rest) :
    tokenize (ds ++ rest) =
      (tokenize rest).map (fun ts => Tok.num ((decodeDigits ds : ℚ)) :: ts) := by
  cases ds with
  | nil => exact absurd rfl hne
  | cons c ds' =>
    have hc : c.isDigit = true := hdig c (by simp)
    have hds' : ∀ x ∈ ds', x.isDigit = true := fun x hx => hdig x (by simp [hx])
    have hip : (ds' ++ rest).takeWhile Char.isDigit = ds' :=
      takeWhile_run hds' (head_not_digit hr)
    simp only [tokenize, List.cons_append, List.length_cons, tokenizeF]
    try simp only [List.append_eq]
    rw [if_neg (by rw [isDigit_not_space hc]; simp), if_pos hc, hip, drop_run,
      if_neg (head_not_dot hr),
      tokenizeF_fuel rest _ (rest.length + 1) (by simp [List.length_append]; omega) (by omega)]

theorem tokenize_digits_frac (ds fs rest : List Char) (hne : ds ≠ [])
    (hdig : ∀ c ∈ ds, c.isDigit = true) (hf : ∀ c ∈ fs, c.isDigit = true)
    (hr : nonNumStart rest) :
    tokenize (ds ++ ('.' :: (fs ++ rest))) =
      (tokenize rest).map (fun ts => Tok.num ((decodeDigits ds : ℚ) +
        (decodeDigits fs : ℚ) / (10 : ℚ) ^ fs.length) :: ts) := by
  cases ds with
  | nil => exact absurd rfl hne
  | cons c ds' =>
    have hc : c.isDigit = true := hdig c (by simp)
    have hds' : ∀ x ∈ ds', x.isDigit = true := fun x hx => hdig x (by simp [hx])
    have hip : (ds' ++ ('.' :: (fs ++ rest))).takeWhile Char.isDigit = ds' := by
      apply takeWhile_run hds'
      intro x hx
      injection hx with h
      rw [← h]
      decide
    have hfp : (fs ++ rest).takeWhile Char.isDigit = fs :=
      takeWhile_run hf (head_not_digit hr)
    simp only [tokenize, List.cons_append, List.length_cons, tokenizeF]
    try simp only [List.append_eq]
    rw [if_neg (by rw [isDigit_not_space hc]; simp), if_pos hc, hip, drop_run]
    rw [if_pos (by simp)]
    simp only [List.tail_cons]
    rw [hfp, drop_run,
      tokenizeF_fuel rest _ (rest.length + 1)
        (by simp [List.length_append]; omega) (by omega)]

theorem tokenize_space (c : Char) (hc : isSpace c = true) (rest : List Char) :
    tokenize (c :: rest) = tokenize rest := by
  simp only [tokenize, List.length_cons, tokenizeF]
  rw [if_pos hc]

theorem tokenize_div (rest : List Char) :
    tokenize ('/' :: rest) = (tokenize rest).map (fun ts => Tok.div :: ts) := by
  simp only [tokenize, List.length_cons, tokenizeF]
  rw [if_neg (by decide), if_neg (by decide), if_neg (by decide), if_neg (by decide),
    if_neg (by decide)]
  simp

theorem tokenize_minus (rest : List Char) :
    tokenize ('-' :: rest) = (tokenize rest).map (fun ts => Tok.sub :: ts) := by
  simp only [tokenize, List.length_cons, tokenizeF]
  rw [if_neg (by decide), if_neg (by decide), if_neg (by decide)]
  simp

theorem tokenize_lparen (rest : List Char) :
    tokenize ('(' :: rest) = (tokenize rest).map (fun ts => Tok.lp :: ts) := by
  simp only [tokenize, List.length_cons, tokenizeF]
  rw [if_neg (by decide), if_neg (by decide), if_neg (by decide), if_neg (by decide),
    if_neg (by decide), if_neg (by decide)]
  simp

theorem tokenize_rparen (rest : List Char) :
    tokenize (')' :: rest) = (tokenize rest).map (fun ts => Tok.rp :: ts) := by
  simp only [tokenize, List.length_cons, tokenizeF]
  rw [if_neg (by decide), if_neg (by decide), if_neg (by decide), if_neg (by decide),
    if_neg (by decide), if_neg (by decide), if_neg (by decide)]
  simp

theorem tokenize_natChars (m : Nat) (rest : List Char) (hr : nonNumStart rest) :
    tokenize (natChars m ++ rest) =
      (tokenize rest).map (fun ts => Tok.num ((m : ℚ)) :: ts) := by
  rw [tokenize_digits (natChars m) rest (natChars_ne_nil m) (natChars_digits m) hr,
    decodeDigits_natChars]

/-! ## Residual evaluation lemmas -/

theorem nonNumStart_nil : nonNumStart [] := by
  intro c h
  cases h

theorem nonNumStart_cons {c : Char} {tl : List Char} (h1 : c.isDigit = false)
    (h2 : c ≠ '.') : nonNumStart (c :: tl) := by
  intro x hx
  injection hx with hh
  rw [← hh]
  exact ⟨h1, h2⟩

theorem evalResidual_natChars (n : Nat) : evalResidual (natChars n) = .ok (n : ℚ) := by
  have htoks : tokenize (natChars n) = some [Tok.num (n : ℚ)] := by
    have := tokenize_natChars n [] nonNumStart_nil
    rw [List.append_nil] at this
    rw [this]
    rfl
  simp only [evalResidual, htoks]
  simp [parseExpr, parseTerm, parseFactor, parseTermRest, parseExprRest]

theorem evalResidual_div_natChars (a b : Nat) :
    evalResidual (natChars a ++ (' ' :: ('/' :: (' ' :: natChars b)))) =
      if b = 0 then
        .error "division by zero"
      else .ok ((a : ℚ) / (b : ℚ)) := by
  have hb : tokenize (natChars b) = some [Tok.num (b : ℚ)] := by
    have := tokenize_natChars b [] nonNumStart_nil
    rw [List.append_nil] at this
    rw [this]
    rfl
  have htoks : tokenize (natChars a ++ (' ' :: ('/' :: (' ' :: natChars b)))) =
      some [Tok.num (a : ℚ), Tok.div, Tok.num (b : ℚ)] := by
    rw [tokenize_natChars a _ (nonNumStart_cons (by decide) (by decide)),
      tokenize_space ' ' (by decide), tokenize_div,
      tokenize_space ' ' (by decide), hb]
    rfl
  simp only [evalResidual, htoks]
  by_cases hbz : b = 0
  · subst hbz
    simp [parseExpr, parseTerm, parseFactor, parseTermRest, parseExprRest]
  · have hcast : ((b : ℚ) = 0) = False := by
      simp [Nat.cast_eq_zero, hbz]
    simp [parseExpr, parseTerm, parseFactor, parseTermRest, parseExprRest, hcast, hbz]

theorem cast_toNat_q {z : Int} (hz : 0 ≤ z) : ((z.toNat : ℚ)) = ((z : ℚ)) := by
  have h := Int.toNat_of_nonneg hz
  exact_mod_cast h

theorem evalResidual_floatChars (q : ℚ) (hq : 0 ≤ q) :
    evalResidual (floatChars q) = .ok q := by
  have hnum : ¬ q.num < 0 := by
    have := Rat.num_nonneg.mpr hq
    omega
  have hint : intChars q.num = natChars q.num.toNat := by
    rw [intChars, if_neg hnum]
    congr 1
    omega
  have h3 : ((q.num.toNat : ℚ)) = ((q.num : ℚ)) := cast_toNat_q (by omega)
  by_cases hden : q.den = 1
  · rw [floatChars, if_pos hden, hint]
    have h0 : decodeDigits ['0'] = 0 := by decide
    have htoks : tokenize (natChars q.num.toNat ++ ['.', '0']) =
        some [Tok.num ((q.num.toNat : ℚ))] := by
      have hfr := tokenize_digits_frac (natChars q.num.toNat) ['0'] []
        (natChars_ne_nil _) (natChars_digits _) (by intro x hx; simp at hx; rw [hx]; decide)
        nonNumStart_nil
      rw [List.append_nil] at hfr
      rw [show (natChars q.num.toNat ++ ['.', '0']) =
        (natChars q.num.toNat ++ ('.' :: ['0'])) from rfl, hfr]
      rw [decodeDigits_natChars]
      simp [h0]
      rfl
    simp only [evalResidual, htoks]
    have h1 : ((q.den : ℚ)) = 1 := by rw [hden]; norm_num
    have h2 : ((q.num : ℚ)) = q := by
      have hnd := Rat.num_div_den q
      rw [h1, div_one] at hnd
      exact hnd
    simp [parseExpr, parseTerm, parseFactor, parseTermRest, parseExprRest, h3, h2]
  · rw [floatChars, if_neg hden, hint]
    have hb : tokenize (natChars q.den ++ [')']) =
        some [Tok.num ((q.den : ℚ)), Tok.rp] := by
      rw [tokenize_natChars q.den _ (nonNumStart_cons (by decide) (by decide)),
        tokenize_rparen]
      rfl
    have htoks : tokenize ('(' :: natChars q.num.toNat ++ ' ' :: '/' :: ' ' :: natChars q.den ++ [')']) =
        some [Tok.lp, Tok.num ((q.num.toNat : ℚ)), Tok.div, Tok.num ((q.den : ℚ)), Tok.rp] := by
      rw [show ('(' :: natChars q.num.toNat ++ ' ' :: '/' :: ' ' :: natChars q.den ++ [')']) =
        ('(' :: (natChars q.num.toNat ++ (' ' :: ('/' :: (' ' :: (natChars q.den ++ [')'])))))) from by
          simp [List.append_assoc]]
      rw [tokenize_lparen,
        tokenize_natChars q.num.toNat _ (nonNumStart_cons (by decide) (by decide)),
        tokenize_space ' ' (by decide), tokenize_div, tokenize_space ' ' (by decide), hb]
      rfl
    simp only [evalResidual, htoks]
    have hdz : ((q.den : ℚ) = 0) = False := by
      simp [Nat.cast_eq_zero]
    have hval : ((q.num : ℚ)) / ((q.den : ℚ)) = q := Rat.num_div_den q
    simp [parseExpr, parseTerm, parseFactor, parseTermRest, parseExprRest, hdz, h3, hval]

/-! ## Scanner lemmas: `stripCI`, `tryMatch`, `findCalls` -/

theorem stripCI_refl_append (p r : List Char) : stripCI p (p ++ r) = some r := by
  induction p with
  | nil => rfl
  | cons c cs ih =>
    simp only [List.cons_append, stripCI, if_pos rfl]
    exact ih

theorem stripCI_mem_lparen {p s r : List Char} (hp : '(' ∈ p)
    (h : stripCI p s = some r) : '(' ∈ s := by
  induction p generalizing s with
  | nil => cases hp
  | cons p0 ps ih =>
    cases s with
    | nil => cases h
    | cons c cs =>
      simp only [stripCI] at h
      by_cases hci : p0.toLower = c.toLower
      · rw [if_pos hci] at h
        rcases List.mem_cons.mp hp with hp0 | hps
        · have hc : c = '(' := toLower_eq_lparen (by rw [← hci, ← hp0]; decide)
          simp [hc]
        · exact List.mem_cons_of_mem c (ih hps h)
      · rw [if_neg hci] at h
        cases h

theorem tryMatch_none_of_no_paren {fn s : List Char} (h : ¬ '(' ∈ s) :
    tryMatch fn s = none := by
  unfold tryMatch
  cases hst : stripCI (fn ++ ['(']) s with
  | none => rfl
  | some s1 =>
    exact absurd (stripCI_mem_lparen (by simp) hst) h

theorem findCallsF_nil {fn : List Char} (fuel : Nat) (s : List Char)
    (h : ∀ k, tryMatch fn (s.drop k) = none) : findCallsF fn fuel s = [] := by
  induction s generalizing fuel with
  | nil => cases fuel <;> rfl
  | cons c rest ih =>
    cases fuel with
    | zero => rfl
    | succ g =>
      have h0 := h 0
      rw [List.drop_zero] at h0
      simp only [findCallsF, h0]
      exact ih g (fun k => by have := h (k + 1); rwa [List.drop_succ_cons] at this)

theorem findCalls_nil_shape (fn A B : List Char) (hB : ¬ '(' ∈ B)
    (hA : ∀ k, k ≤ A.length → tryMatch fn ((A.drop k) ++ ('(' :: (B ++ [')']))) = none) :
    findCalls fn (A ++ ('(' :: (B ++ [')']))) = [] := by
  apply findCallsF_nil
  intro k
  by_cases hk : k ≤ A.length
  · rw [List.drop_append_of_le_length hk]
    exact hA k hk
  · rw [List.drop_append_eq_append_drop]
    have hAk : A.drop k = [] := by
      rw [List.drop_eq_nil_iff]
      omega
    rw [hAk, List.nil_append]
    apply tryMatch_none_of_no_paren
    intro hmem
    have hmem2 : '(' ∈ ('(' :: (B ++ [')'])).drop (k - A.length) := hmem
    have hk1 : 1 ≤ k - A.length := by omega
    rcases Nat.exists_eq_add_of_le hk1 with ⟨j, hj⟩
    rw [hj] at hmem2
    rw [show (1 + j) = j + 1 from by omega, List.drop_succ_cons] at hmem2
    have hmem3 : '(' ∈ B ++ [')'] := List.mem_of_mem_drop hmem2
    rcases List.mem_append.mp hmem3 with hb | hl
    · exact hB hb
    · simp at hl

theorem isClassChar_not_rparen : isClassChar ')' = false := by decide

theorem tryMatch_exact (fn field : List Char) (hne : field ≠ [])
    (hcl : ∀ c ∈ field, isClassChar c = true) :
    tryMatch fn (fn ++ ('(' :: (field ++ [')']))) =
      some ⟨fn ++ ('(' :: (field ++ [')'])), field, []⟩ := by
  unfold tryMatch
  have hs : fn ++ ('(' :: (field ++ [')'])) = (fn ++ ['(']) ++ (field ++ [')']) := by
    simp
  rw [hs, stripCI_refl_append]
  have hrun : (field ++ [')']).takeWhile isClassChar = field := by
    apply takeWhile_run hcl
    intro c hc
    injection hc with hh
    rw [← hh]
    decide
  simp only [hrun, if_neg hne, drop_run]
  simp only [List.head?_cons, if_pos rfl, List.tail_cons]
  rw [List.take_of_length_le (by simp [List.length_append]; omega)]
  simp

theorem findCalls_single (fn field : List Char) (hfn : fn ≠ []) (hne : field ≠ [])
    (hcl : ∀ c ∈ field, isClassChar c = true) :
    findCalls fn (fn ++ ('(' :: (field ++ [')']))) =
      [(fn ++ ('(' :: (field ++ [')'])), field)] := by
  cases fn with
  | nil => exact absurd rfl hfn
  | cons f0 fs =>
    simp only [findCalls, List.cons_append, List.length_cons, findCallsF, List.append_eq]
    rw [show (f0 :: (fs ++ ('(' :: (field ++ [')'])))) =
      ((f0 :: fs) ++ ('(' :: (field ++ [')']))) from rfl]
    rw [tryMatch_exact (f0 :: fs) field hne hcl]
    rfl

/-! ## `str.replace` lemmas -/

theorem replaceAllF_nil (pat rep : List Char) (fuel : Nat) :
    replaceAllF pat rep fuel [] = [] := by
  cases fuel <;> rfl

theorem isPrefixOf_self (l : List Char) : l.isPrefixOf l = true := by
  induction l with
  | nil => rfl
  | cons c cs ih => simp [List.isPrefixOf, ih]

theorem replaceAll_self (s rep : List Char) (h : s ≠ []) :
    replaceAll s s rep = rep := by
  cases s with
  | nil => exact absurd rfl h
  | cons c rest =>
    simp only [replaceAll, List.length_cons, replaceAllF]
    rw [if_pos ⟨by simp, isPrefixOf_self (c :: rest)⟩]
    rw [show List.drop (rest.length + 1) (c :: rest) = [] from by
      rw [List.drop_eq_nil_iff]; simp]
    rw [replaceAllF_nil, List.append_nil]

theorem replaceAllF_fuel_aux (n : Nat) : ∀ (s : List Char), s.length ≤ n →
    ∀ pat rep f1 f2, s.length < f1 → s.length < f2 →
      replaceAllF pat rep f1 s = replaceAllF pat rep f2 s := by
  induction n with
  | zero =>
    intro s hs pat rep f1 f2 h1 h2
    have h0 : s.length = 0 := Nat.le_zero.mp hs
    rw [List.length_eq_zero] at h0
    subst h0
    cases f1 <;> cases f2 <;> rfl
  | succ n ih =>
    intro s hs pat rep f1 f2 h1 h2
    cases s with
    | nil => cases f1 <;> cases f2 <;> rfl
    | cons c rest =>
      cases f1 with
      | zero => simp at h1
      | succ g1 =>
        cases f2 with
        | zero => simp at h2
        | succ g2 =>
          simp only [List.length_cons] at h1 h2 hs
          simp only [replaceAllF]
          by_cases hp : pat ≠ [] ∧ pat.isPrefixOf (c :: rest) = true
          · rw [if_pos hp, if_pos hp]
            have hplen : 1 ≤ pat.length := by
              cases pat with
              | nil => exact absurd rfl hp.1
              | cons _ _ => simp
            have hdlen : ((c :: rest).drop pat.length).length ≤ rest.length := by
              rw [List.length_drop, List.length_cons]
              omega
            rw [ih _ (by omega) pat rep g1 g2 (by omega) (by omega)]
          · rw [if_neg hp, if_neg hp]
            rw [ih rest (by omega) pat rep g1 g2 (by omega) (by omega)]

theorem replaceAllF_fuel (s pat rep : List Char) (f1 f2 : Nat) (h1 : s.length < f1)
    (h2 : s.length < f2) : replaceAllF pat rep f1 s = replaceAllF pat rep f2 s :=
  replaceAllF_fuel_aux s.length s le_rfl pat rep f1 f2 h1 h2

theorem replaceAll_skip {ds rest pat rep : List Char} {h0 : Char}
    (hds : ∀ c ∈ ds, c.isDigit = true) (hp : pat.head? = some h0)
    (hh0 : h0.isDigit = false) :
    replaceAll (ds ++ rest) pat rep = ds ++ replaceAll rest pat rep := by
  induction ds with
  | nil => simp
  | cons d ds' ih =>
    cases pat with
    | nil => cases hp
    | cons p0 ps =>
      injection hp with hp0
      have hh0' : p0.isDigit = false := by rw [hp0]; exact hh0
      have hd : d.isDigit = true := hds d (by simp)
      have hne : p0 ≠ d := by
        intro hh
        rw [hh, hd] at hh0'
        cases hh0'
      simp only [List.cons_append, replaceAll, List.length_cons, replaceAllF, List.append_eq]
      rw [if_neg (by
        intro hcon
        have := hcon.2
        simp only [List.isPrefixOf] at this
        rw [Bool.and_eq_true, beq_iff_eq] at this
        exact hne this.1)]
      rw [replaceAllF_fuel (ds' ++ rest) _ _ _ ((ds' ++ rest).length + 1) (by omega) (by omega)]
      rw [show replaceAllF (p0 :: ps) rep ((ds' ++ rest).length + 1) (ds' ++ rest) =
        replaceAll (ds' ++ rest) (p0 :: ps) rep from rfl]
      rw [ih (fun c hc => hds c (by simp [hc]))]
      rfl

/-! ## Stage lemmas -/

theorem fnChars_ne_nil (fn : AggFn) : fnChars fn ≠ [] := by
  cases fn <;> decide

theorem isClassChar_not_lparen {field : List Char}
    (hcl : ∀ c ∈ field, isClassChar c = true) : ¬ '(' ∈ field := by
  intro hmem
  have := hcl '(' hmem
  cases this

theorem applyAggStage_no_match {fn : AggFn} {df : Dataset} {s : List Char}
    (h : findCalls (fnChars fn) s = []) : applyAggStage fn df s = .ok s := by
  simp [applyAggStage, h]

theorem applyPctStage_no_match {df : Dataset} {s : List Char}
    (h : findPctCalls s = []) : applyPctStage df s = .ok s := by
  simp [applyPctStage, h]

theorem findCalls_nil_no_paren (fn : List Char) {s : List Char} (h : ¬ '(' ∈ s) :
    findCalls fn s = [] :=
  findCallsF_nil _ _ (fun k =>
    tryMatch_none_of_no_paren (fun hm => h (List.mem_of_mem_drop hm)))

theorem findCalls_nil_agg {g k : AggFn} (hgk : g ≠ k) (field : List Char)
    (hcl : ∀ c ∈ field, isClassChar c = true) :
    findCalls (fnChars g) (fnChars k ++ ('(' :: (field ++ [')']))) = [] := by
  apply findCalls_nil_shape _ _ _ (isClassChar_not_lparen hcl)
  intro j hj
  cases g <;> cases k <;>
    first
      | exact absurd rfl hgk
      | (simp only [fnChars, List.length_cons, List.length_nil] at hj
         interval_cases j <;> rfl)

theorem applyAggStage_single (fn : AggFn) (df : Dataset) (field : List Char)
    (hne : field ≠ []) (hcl : ∀ c ∈ field, isClassChar c = true)
    (hstrip : stripWS field = field) :
    applyAggStage fn df (fnChars fn ++ ('(' :: (field ++ [')']))) =
      if String.mk field ∈ df.cols then .ok (substChars fn df (String.mk field))
      else .error (colNotFound (String.mk field) df.cols) := by
  rw [applyAggStage, findCalls_single (fnChars fn) field (fnChars_ne_nil fn) hne hcl]
  simp only [List.foldl_cons, List.foldl_nil, hstrip]
  by_cases hcol : String.mk field ∈ df.cols
  · rw [if_pos hcol, if_pos hcol]
    rw [replaceAll_self _ _ (by
      cases hl : fnChars fn with
      | nil => exact absurd hl (fnChars_ne_nil fn)
      | cons a b => simp)]
  · rw [if_neg hcol, if_neg hcol]

/-! ## `PERCENTAGE` scanner lemmas -/

theorem tryMatchPct_none_of_no_paren {s : List Char} (h : ¬ '(' ∈ s) :
    tryMatchPct s = none := by
  unfold tryMatchPct
  cases hst : stripCI pctHead s with
  | none => rfl
  | some s1 =>
    exact absurd (stripCI_mem_lparen (by decide) hst) h

theorem findPctCallsF_nil (fuel : Nat) (s : List Char)
    (h : ∀ k, tryMatchPct (s.drop k) = none) : findPctCallsF fuel s = [] := by
  induction s generalizing fuel with
  | nil => cases fuel <;> rfl
  | cons c rest ih =>
    cases fuel with
    | zero => rfl
    | succ g =>
      have h0 := h 0
      rw [List.drop_zero] at h0
      simp only [findPctCallsF, h0]
      exact ih g (fun k => by have := h (k + 1); rwa [List.drop_succ_cons] at this)

theorem findPctCalls_nil_no_paren {s : List Char} (h : ¬ '(' ∈ s) :
    findPctCalls s = [] :=
  findPctCallsF_nil _ _ (fun k =>
    tryMatchPct_none_of_no_paren (fun hm => h (List.mem_of_mem_drop hm)))

theorem findCalls_nil_pct_shape (g : AggFn) {B : List Char} (hB : ¬ '(' ∈ B) :
    findCalls (fnChars g)
      (['P', 'E', 'R', 'C', 'E', 'N', 'T', 'A', 'G', 'E'] ++ ('(' :: (B ++ [')']))) = [] := by
  apply findCalls_nil_shape _ _ _ hB
  intro j hj
  simp only [List.length_cons, List.length_nil] at hj
  cases g <;> (interval_cases j <;> rfl)



theorem takeWhile_notrp {lit : List Char} (hlrp : ∀ c ∈ lit, ¬ c = ')') (tail : List Char)
    (htl : ∀ c, tail.head? = some c → c = ')') :
    ((lit ++ tail).takeWhile (fun c => decide (¬ c = ')'))) = lit := by
  apply takeWhile_run
  · intro c hc
    simp [hlrp c hc]
  · intro c hc
    have := htl c hc
    simp [this]

theorem pctCore_unquoted (lit : List Char) (hlne : lit ≠ [])
    (hlrp : ∀ c ∈ lit, ¬ c = ')') (hlast : isQuote (lit.getLast?.getD ' ') = false) :
    pctCore (lit ++ [')']) = some (lit, lit.length + 1) := by
  have hch : ((lit ++ [')']).takeWhile (fun c => decide (¬ c = ')'))) = lit := by
    apply takeWhile_notrp hlrp
    intro c hc
    injection hc with hh
    exact hh.symm
  simp only [pctCore, hch]
  rw [drop_run]
  rw [List.head?_cons]
  rw [if_pos rfl, if_neg hlne]
  rw [if_neg (by
    intro hcon
    rw [hlast] at hcon
    exact absurd hcon.2 (by simp))]

theorem pctCore_quoted (lit : List Char) (hlne : lit ≠ [])
    (hlrp : ∀ c ∈ lit, ¬ c = ')') :
    pctCore ((lit ++ [Char.ofNat 39]) ++ [')']) =
      some (lit, (lit ++ [Char.ofNat 39]).length + 1) := by
  have hch : (((lit ++ [Char.ofNat 39]) ++ [')']).takeWhile (fun c => decide (¬ c = ')'))) =
      lit ++ [Char.ofNat 39] := by
    apply takeWhile_notrp
    · intro c hc
      rcases List.mem_append.mp hc with h | h
      · exact hlrp c h
      · simp at h
        rw [h]
        decide
    · intro c hc
      injection hc with hh
      exact hh.symm
  simp only [pctCore, hch]
  rw [drop_run]
  rw [List.head?_cons]
  rw [if_pos rfl]
  rw [if_neg (by simp)]
  rw [if_pos (by
    refine ⟨?_, ?_⟩
    · rw [List.length_append]
      cases lit with
      | nil => exact absurd rfl hlne
      | cons _ _ => simp
    · rw [List.getLast?_concat]
      decide)]
  rw [List.dropLast_concat]

theorem pctLit_unquoted (lit : List Char) (hlne : lit ≠ [])
    (hlrp : ∀ c ∈ lit, ¬ c = ')') (hlq : ∀ c ∈ lit, isQuote c = false) :
    pctLit (lit ++ [')']) = some (lit, lit.length + 1) := by
  have hlast : isQuote (lit.getLast?.getD ' ') = false := by
    cases hg : lit.getLast? with
    | none =>
      rw [List.getLast?_eq_none_iff] at hg
      exact absurd hg hlne
    | some g =>
      simp only [Option.getD]
      exact hlq g (List.mem_of_getLast?_eq_some hg)
  cases hlit : lit with
  | nil => exact absurd hlit hlne
  | cons l0 ls =>
    rw [← hlit]
    rw [show (lit ++ [')']) = (l0 :: (ls ++ [')'])) from by rw [hlit]; rfl]
    simp only [pctLit]
    rw [if_neg (by rw [hlq l0 (by rw [hlit]; simp)]; simp)]
    rw [show (l0 :: (ls ++ [')'])) = (lit ++ [')']) from by rw [hlit]; rfl]
    exact pctCore_unquoted lit hlne hlrp hlast

theorem pctLit_quoted (lit : List Char) (hlne : lit ≠ [])
    (hlrp : ∀ c ∈ lit, ¬ c = ')') :
    pctLit (Char.ofNat 39 :: ((lit ++ [Char.ofNat 39]) ++ [')'])) =
      some (lit, lit.length + 3) := by
  simp only [pctLit]
  rw [if_pos (by decide)]
  rw [pctCore_quoted lit hlne hlrp]
  simp [List.length_append]

theorem tryMatchPct_exact (field L lit : List Char) (n : Nat)
    (hfne : field ≠ []) (hfcl : ∀ c ∈ field, isClassChar c = true)
    (hL : pctLit L = some (lit, n)) (hLlen : L.length = n)
    (hLsp : ∀ c, L.head? = some c → isSpace c = false) :
    tryMatchPct (pctHead ++ (field ++ (',' :: (' ' :: L)))) =
      some ⟨pctHead ++ (field ++ (',' :: (' ' :: L))), field, lit, []⟩ := by
  unfold tryMatchPct
  rw [stripCI_refl_append]
  simp only []
  have hfld : (field ++ (',' :: (' ' :: L))).takeWhile isClassChar = field := by
    apply takeWhile_run hfcl
    intro c hc
    injection hc with hh
    rw [← hh]
    decide
  rw [hfld, if_neg hfne, drop_run]
  simp only [List.head?_cons, if_pos rfl, List.tail_cons]
  have hws : ((' ' :: L).takeWhile isSpace) = [' '] := by
    rw [show (' ' :: L) = ([' '] ++ L) from rfl]
    apply takeWhile_run (by intro c hc; simp at hc; rw [hc]; decide) hLsp
  rw [hws]
  simp only [List.length_cons, List.length_nil, List.drop_succ_cons, List.drop_zero]
  rw [hL]
  try simp only [if_true]
  try simp only []
  try simp only [Nat.zero_add]
  have hslen : (pctHead ++ (field ++ (',' :: (' ' :: L)))).length =
      pctHead.length + field.length + 1 + 1 + n := by
    simp [List.length_append]
    omega
  rw [List.take_of_length_le (by omega), List.drop_eq_nil_iff.mpr (by omega)]

theorem findPctCalls_single (field L lit : List Char) (n : Nat)
    (hfne : field ≠ []) (hfcl : ∀ c ∈ field, isClassChar c = true)
    (hL : pctLit L = some (lit, n)) (hLlen : L.length = n)
    (hLsp : ∀ c, L.head? = some c → isSpace c = false) :
    findPctCalls (pctHead ++ (field ++ (',' :: (' ' :: L)))) =
      [⟨pctHead ++ (field ++ (',' :: (' ' :: L))), field, lit, []⟩] := by
  have hm := tryMatchPct_exact field L lit n hfne hfcl hL hLlen hLsp
  rw [show (pctHead ++ (field ++ (',' :: (' ' :: L)))) =
    ('P' :: (['E', 'R', 'C', 'E', 'N', 'T', 'A', 'G', 'E', '('] ++ (field ++ (',' :: (' ' :: L)))))
    from rfl] at hm ⊢
  simp only [findPctCalls, List.length_cons, findPctCallsF]
  rw [hm]
  rfl

theorem applyPctStage_single (df : Dataset) (field L lit : List Char) (n : Nat)
    (hfne : field ≠ []) (hfcl : ∀ c ∈ field, isClassChar c = true)
    (hstrip : stripWS field = field)
    (hL : pctLit L = some (lit, n)) (hLlen : L.length = n)
    (hLsp : ∀ c, L.head? = some c → isSpace c = false) :
    applyPctStage df (pctHead ++ (field ++ (',' :: (' ' :: L)))) =
      (if String.mk field ∈ df.cols then
        .ok (if df.rows.length = 0 then ['0']
          else floatChars
            (((df.rows.filter (fun r =>
                cellChars (getCell r (String.mk field)) =
                  stripQuotes (stripWS lit))).length : ℚ) /
              (df.rows.length : ℚ) * 100))
      else .error (colNotFound (String.mk field) df.cols)) := by
  rw [applyPctStage, findPctCalls_single field L lit n hfne hfcl hL hLlen hLsp]
  simp only [List.foldl_cons, List.foldl_nil, hstrip]
  by_cases hcol : String.mk field ∈ df.cols
  · rw [if_pos hcol, if_pos hcol]
    rw [replaceAll_self _ _ (by simp [pctHead])]
  · rw [if_neg hcol, if_neg hcol]

/-! ## `evaluateFormula` composition -/

theorem evaluateFormula_eq (formula : String) (df : Dataset)
    {s1 s2 s3 s4 s5 s6 : List Char}
    (h1 : applyAggStage .COUNT df formula.toList = .ok s1)
    (h2 : applyAggStage .SUM df s1 = .ok s2)
    (h3 : applyAggStage .AVG df s2 = .ok s3)
    (h4 : applyAggStage .MIN df s3 = .ok s4)
    (h5 : applyAggStage .MAX df s4 = .ok s5)
    (h6 : applyPctStage df s5 = .ok s6) :
    evaluateFormula formula df =
      match evalResidual s6 with
      | .ok v => .ok v
      | .error e =>
        .error ("Could not evaluate formula: " ++ formula ++ ". Evaluation error: " ++ e) := by
  simp only [evaluateFormula, h1, h2, h3, h4, h5, h6]

theorem evaluateFormula_err_count (formula : String) (df : Dataset) {e : String}
    (h1 : applyAggStage .COUNT df formula.toList = .error e) :
    evaluateFormula formula df = .error e := by
  simp only [evaluateFormula, h1]

theorem evaluateFormula_err_sum (formula : String) (df : Dataset) {s1 : List Char}
    {e : String}
    (h0 : applyAggStage .COUNT df formula.toList = .ok s1)
    (h1 : applyAggStage .SUM df s1 = .error e) :
    evaluateFormula formula df = .error e := by
  simp only [evaluateFormula, h0, h1]

theorem evaluateFormula_err_stage (formula : String) (df : Dataset)
    {s1 s2 : List Char} {e : String}
    (h1 : applyAggStage .COUNT df formula.toList = .ok s1)
    (h2 : applyAggStage .SUM df s1 = .ok s2)
    (h3 : applyAggStage .AVG df s2 = .error e) :
    evaluateFormula formula df = .error e := by
  simp only [evaluateFormula, h1, h2, h3]

theorem evaluateFormula_err_min (formula : String) (df : Dataset)
    {s1 s2 s3 : List Char} {e : String}
    (h1 : applyAggStage .COUNT df formula.toList = .ok s1)
    (h2 : applyAggStage .SUM df s1 = .ok s2)
    (h3 : applyAggStage .AVG df s2 = .ok s3)
    (h4 : applyAggStage .MIN df s3 = .error e) :
    evaluateFormula formula df = .error e := by
  simp only [evaluateFormula, h1, h2, h3, h4]

theorem evaluateFormula_err_max (formula : String) (df : Dataset)
    {s1 s2 s3 s4 : List Char} {e : String}
    (h1 : applyAggStage .COUNT df formula.toList = .ok s1)
    (h2 : applyAggStage .SUM df s1 = .ok s2)
    (h3 : applyAggStage .AVG df s2 = .ok s3)
    (h4 : applyAggStage .MIN df s3 = .ok s4)
    (h5 : applyAggStage .MAX df s4 = .error e) :
    evaluateFormula formula df = .error e := by
  simp only [evaluateFormula, h1, h2, h3, h4, h5]

theorem evaluateFormula_err_pct (formula : String) (df : Dataset)
    {s1 s2 s3 s4 s5 : List Char} {e : String}
    (h1 : applyAggStage .COUNT df formula.toList = .ok s1)
    (h2 : applyAggStage .SUM df s1 = .ok s2)
    (h3 : applyAggStage .AVG df s2 = .ok s3)
    (h4 : applyAggStage .MIN df s3 = .ok s4)
    (h5 : applyAggStage .MAX df s4 = .ok s5)
    (h6 : applyPctStage df s5 = .error e) :
    evaluateFormula formula df = .error e := by
  simp only [evaluateFormula, h1, h2, h3, h4, h5, h6]

/-! ## No-match facts for substituted numeric strings -/

theorem natChars_no_paren (m : Nat) : ¬ '(' ∈ natChars m := by
  intro hmem
  have := natChars_digits m '(' hmem
  cases this

theorem findCalls_nil_lparen_shape (f0 : Char) (fs : List Char)
    (hfn0 : ¬ f0.toLower = '(') {B : List Char} (hB : ¬ '(' ∈ B) :
    findCalls (f0 :: fs) ('(' :: (B ++ [')'])) = [] := by
  apply findCallsF_nil
  intro k
  cases k with
  | zero =>
    rw [List.drop_zero]
    unfold tryMatch
    simp only [List.cons_append, stripCI]
    rw [if_neg (by
      intro hcon
      rw [show ('(').toLower = '(' from by decide] at hcon
      exact hfn0 hcon)]
  | succ j =>
    rw [List.drop_succ_cons]
    apply tryMatch_none_of_no_paren
    intro hmem
    have hmem2 : '(' ∈ B ++ [')'] := List.mem_of_mem_drop hmem
    rcases List.mem_append.mp hmem2 with hb | hl
    · exact hB hb
    · simp at hl

theorem findPctCalls_nil_lparen_shape {B : List Char} (hB : ¬ '(' ∈ B) :
    findPctCalls ('(' :: (B ++ [')'])) = [] := by
  apply findPctCallsF_nil
  intro k
  cases k with
  | zero =>
    rw [List.drop_zero]
    unfold tryMatchPct
    simp only [pctHead, stripCI]
    rw [if_neg (by decide)]
  | succ j =>
    rw [List.drop_succ_cons]
    apply tryMatchPct_none_of_no_paren
    intro hmem
    have hmem2 : '(' ∈ B ++ [')'] := List.mem_of_mem_drop hmem
    rcases List.mem_append.mp hmem2 with hb | hl
    · exact hB hb
    · simp at hl

theorem floatChars_inner_no_paren (q : ℚ) :
    ¬ '(' ∈ intChars q.num ++ (' ' :: ('/' :: (' ' :: natChars q.den))) := by
  intro hmem
  rcases List.mem_append.mp hmem with h | h
  · rw [intChars] at h
    by_cases hneg : q.num < 0
    · rw [if_pos hneg] at h
      rcases List.mem_cons.mp h with h1 | h1
      · cases h1
      · exact natChars_no_paren _ h1
    · rw [if_neg hneg] at h
      exact natChars_no_paren _ h
  · rcases List.mem_cons.mp h with h1 | h1
    · cases h1
    · rcases List.mem_cons.mp h1 with h2 | h2
      · cases h2
      · rcases List.mem_cons.mp h2 with h3 | h3
        · cases h3
        · exact natChars_no_paren _ h3

theorem findCalls_nil_floatChars (g : AggFn) (q : ℚ) :
    findCalls (fnChars g) (floatChars q) = [] := by
  rw [floatChars]
  by_cases hden : q.den = 1
  · rw [if_pos hden]
    apply findCalls_nil_no_paren
    intro hmem
    rcases List.mem_append.mp hmem with h | h
    · rw [intChars] at h
      by_cases hneg : q.num < 0
      · rw [if_pos hneg] at h
        rcases List.mem_cons.mp h with h1 | h1
        · cases h1
        · exact natChars_no_paren _ h1
      · rw [if_neg hneg] at h
        exact natChars_no_paren _ h
    · simp at h
  · rw [if_neg hden]
    rw [show ('(' :: intChars q.num ++ ' ' :: '/' :: ' ' :: natChars q.den ++ [')']) =
      ('(' :: ((intChars q.num ++ (' ' :: ('/' :: (' ' :: natChars q.den)))) ++ [')'])) from by
        simp]
    cases g <;>
      exact findCalls_nil_lparen_shape _ _ (by decide) (floatChars_inner_no_paren q)

theorem findPctCalls_nil_floatChars (q : ℚ) :
    findPctCalls (floatChars q) = [] := by
  rw [floatChars]
  by_cases hden : q.den = 1
  · rw [if_pos hden]
    apply findPctCalls_nil_no_paren
    intro hmem
    rcases List.mem_append.mp hmem with h | h
    · rw [intChars] at h
      by_cases hneg : q.num < 0
      · rw [if_pos hneg] at h
        rcases List.mem_cons.mp h with h1 | h1
        · cases h1
        · exact natChars_no_paren _ h1
      · rw [if_neg hneg] at h
        exact natChars_no_paren _ h
    · simp at h
  · rw [if_neg hden]
    rw [show ('(' :: intChars q.num ++ ' ' :: '/' :: ' ' :: natChars q.den ++ [')']) =
      ('(' :: ((intChars q.num ++ (' ' :: ('/' :: (' ' :: natChars q.den)))) ++ [')'])) from by
        simp]
    exact findPctCalls_nil_lparen_shape (floatChars_inner_no_paren q)

/-! ## Single-call formula evaluation -/

theorem toList_mk (l : List Char) : (String.mk l).toList = l := rfl

theorem findCalls_nil_subst (g fn : AggFn) (df : Dataset) (col : String) :
    findCalls (fnChars g) (substChars fn df col) = [] := by
  cases fn with
  | COUNT =>
    exact findCalls_nil_no_paren _ (natChars_no_paren _)
  | SUM => exact findCalls_nil_floatChars g _
  | AVG =>
    cases h : colMean df col with
    | none =>
      simp only [substChars, h, Option.elim]
      cases g <;> decide
    | some q =>
      simp only [substChars, h, Option.elim]
      exact findCalls_nil_floatChars g q
  | MIN =>
    cases h : colMin df col with
    | none =>
      simp only [substChars, h, Option.elim]
      cases g <;> decide
    | some q =>
      simp only [substChars, h, Option.elim]
      exact findCalls_nil_floatChars g q
  | MAX =>
    cases h : colMax df col with
    | none =>
      simp only [substChars, h, Option.elim]
      cases g <;> decide
    | some q =>
      simp only [substChars, h, Option.elim]
      exact findCalls_nil_floatChars g q

theorem findPctCalls_nil_subst (fn : AggFn) (df : Dataset) (col : String) :
    findPctCalls (substChars fn df col) = [] := by
  cases fn with
  | COUNT => exact findPctCalls_nil_no_paren (natChars_no_paren _)
  | SUM => exact findPctCalls_nil_floatChars _
  | AVG =>
    cases h : colMean df col with
    | none =>
      simp only [substChars, h, Option.elim]
      decide
    | some q =>
      simp only [substChars, h, Option.elim]
      exact findPctCalls_nil_floatChars q
  | MIN =>
    cases h : colMin df col with
    | none =>
      simp only [substChars, h, Option.elim]
      decide
    | some q =>
      simp only [substChars, h, Option.elim]
      exact findPctCalls_nil_floatChars q
  | MAX =>
    cases h : colMax df col with
    | none =>
      simp only [substChars, h, Option.elim]
      decide
    | some q =>
      simp only [substChars, h, Option.elim]
      exact findPctCalls_nil_floatChars q

theorem evaluateFormula_single_call (fn : AggFn) (df : Dataset) (field : List Char)
    (hfne : field ≠ []) (hfcl : ∀ c ∈ field, isClassChar c = true)
    (hstrip : stripWS field = field) :
    evaluateFormula (String.mk (fnChars fn ++ ('(' :: (field ++ [')'])))) df =
      (if String.mk field ∈ df.cols then
        (match evalResidual (substChars fn df (String.mk field)) with
         | .ok v => .ok v
         | .error e =>
           .error ("Could not evaluate formula: " ++
             String.mk (fnChars fn ++ ('(' :: (field ++ [')']))) ++
             ". Evaluation error: " ++ e))
      else .error (colNotFound (String.mk field) df.cols)) := by
  have hsingle := applyAggStage_single fn df field hfne hfcl hstrip
  by_cases hcol : String.mk field ∈ df.cols
  · rw [if_pos hcol]
    rw [if_pos hcol] at hsingle
    have hskip : ∀ g : AggFn, g ≠ fn →
        applyAggStage g df (fnChars fn ++ ('(' :: (field ++ [')']))) =
          .ok (fnChars fn ++ ('(' :: (field ++ [')']))) :=
      fun g hg => applyAggStage_no_match (findCalls_nil_agg hg field hfcl)
    have hsub : ∀ g : AggFn,
        applyAggStage g df (substChars fn df (String.mk field)) =
          .ok (substChars fn df (String.mk field)) :=
      fun g => applyAggStage_no_match (findCalls_nil_subst g fn df _)
    have hpct : applyPctStage df (substChars fn df (String.mk field)) =
        .ok (substChars fn df (String.mk field)) :=
      applyPctStage_no_match (findPctCalls_nil_subst fn df _)
    cases fn with
    | COUNT =>
      exact evaluateFormula_eq _ df (toList_mk _ ▸ hsingle) (hsub .SUM) (hsub .AVG)
        (hsub .MIN) (hsub .MAX) hpct
    | SUM =>
      exact evaluateFormula_eq _ df (toList_mk _ ▸ hskip .COUNT (by simp)) hsingle
        (hsub .AVG) (hsub .MIN) (hsub .MAX) hpct
    | AVG =>
      exact evaluateFormula_eq _ df (toList_mk _ ▸ hskip .COUNT (by simp))
        (hskip .SUM (by simp)) hsingle (hsub .MIN) (hsub .MAX) hpct
    | MIN =>
      exact evaluateFormula_eq _ df (toList_mk _ ▸ hskip .COUNT (by simp))
        (hskip .SUM (by simp)) (hskip .AVG (by simp)) hsingle (hsub .MAX) hpct
    | MAX =>
      exact evaluateFormula_eq _ df (toList_mk _ ▸ hskip .COUNT (by simp))
        (hskip .SUM (by simp)) (hskip .AVG (by simp)) (hskip .MIN (by simp)) hsingle hpct
  · rw [if_neg hcol]
    rw [if_neg hcol] at hsingle
    have hskip : ∀ g : AggFn, g ≠ fn →
        applyAggStage g df (fnChars fn ++ ('(' :: (field ++ [')']))) =
          .ok (fnChars fn ++ ('(' :: (field ++ [')']))) :=
      fun g hg => applyAggStage_no_match (findCalls_nil_agg hg field hfcl)
    cases fn with
    | COUNT => exact evaluateFormula_err_count _ df (toList_mk _ ▸ hsingle)
    | SUM =>
      exact evaluateFormula_err_sum _ df (toList_mk _ ▸ hskip .COUNT (by simp)) hsingle
    | AVG =>
      exact evaluateFormula_err_stage _ df (toList_mk _ ▸ hskip .COUNT (by simp))
        (hskip .SUM (by simp)) hsingle
    | MIN =>
      exact evaluateFormula_err_min _ df (toList_mk _ ▸ hskip .COUNT (by simp))
        (hskip .SUM (by simp)) (hskip .AVG (by simp)) hsingle
    | MAX =>
      exact evaluateFormula_err_max _ df (toList_mk _ ▸ hskip .COUNT (by simp))
        (hskip .SUM (by simp)) (hskip .AVG (by simp)) (hskip .MIN (by simp)) hsingle

/-! ## `str.replace` composition lemmas -/

theorem isPrefixOf_append_self (l r : List Char) : l.isPrefixOf (l ++ r) = true := by
  induction l with
  | nil => simp [List.isPrefixOf]
  | cons c cs ih => simp [List.isPrefixOf, ih]

theorem replaceAll_cons_skip {c : Char} {rest pat rep : List Char}
    (h : ¬ (pat ≠ [] ∧ pat.isPrefixOf (c :: rest) = true)) :
    replaceAll (c :: rest) pat rep = c :: replaceAll rest pat rep := by
  simp only [replaceAll, List.length_cons, replaceAllF]
  rw [if_neg h]

theorem replaceAll_head (pat rest rep : List Char) (hpat : pat ≠ []) :
    replaceAll (pat ++ rest) pat rep = rep ++ replaceAll rest pat rep := by
  cases hp : pat with
  | nil => exact absurd hp hpat
  | cons p ps =>
    simp only [replaceAll, List.cons_append, List.length_cons, List.length_append,
      replaceAllF, List.append_eq]
    rw [if_pos ⟨by simp, isPrefixOf_append_self (p :: ps) rest⟩]
    rw [show List.drop (ps.length + 1) (p :: (ps ++ rest)) = rest from by simp]
    congr 1
    show _ = replaceAllF (p :: ps) rep (rest.length + 1) rest
    exact replaceAllF_fuel rest (p :: ps) rep _ _ (by omega) (by omega)

theorem replaceAll_no_occ (pat rep : List Char) :
    ∀ s : List Char, ¬ pat <:+: s → replaceAll s pat rep = s := by
  intro s
  induction s with
  | nil => intro _; rfl
  | cons c rest ih =>
    intro h
    rw [replaceAll_cons_skip (fun hcon =>
      h (List.IsPrefix.isInfix (List.isPrefixOf_iff_prefix.mp hcon.2)))]
    have h' : ¬ pat <:+: rest := by
      intro hi
      obtain ⟨u, v, he⟩ := hi
      exact h ⟨c :: u, v, by rw [List.cons_append, List.cons_append, he]⟩
    rw [ih h']

/-! ## The two-`COUNT` division formula -/

theorem no_paren_count_div (a b : Nat) :
    ¬ '(' ∈ natChars a ++ (' ' :: ('/' :: (' ' :: natChars b))) := by
  intro h
  rcases List.mem_append.mp h with h1 | h2
  · exact natChars_no_paren a h1
  · simp only [List.mem_cons] at h2
    rcases h2 with h2 | h2 | h2 | h2
    · exact absurd h2 (by decide)
    · exact absurd h2 (by decide)
    · exact absurd h2 (by decide)
    · exact natChars_no_paren b h2

theorem applyAggStage_count_div (df : Dataset)
    (h1 : "Student ID" ∈ df.cols) (h2 : "Course Name" ∈ df.cols) :
    applyAggStage .COUNT df ("COUNT(Student ID) / COUNT(Course Name)".toList) =
      .ok (natChars (colCount df "Student ID") ++
        (' ' :: ('/' :: (' ' :: natChars (colCount df "Course Name"))))) := by
  have hfc : findCalls (fnChars .COUNT) ("COUNT(Student ID) / COUNT(Course Name)".toList) =
      [("COUNT(Student ID)".toList, "Student ID".toList),
       ("COUNT(Course Name)".toList, "Course Name".toList)] := by decide
  rw [applyAggStage, hfc]
  simp only [List.foldl_cons, List.foldl_nil]
  rw [show String.mk (stripWS ("Student ID".toList)) = "Student ID" from by decide]
  rw [show String.mk (stripWS ("Course Name".toList)) = "Course Name" from by decide]
  rw [if_pos h1]
  simp only []
  rw [if_pos h2]
  rw [show ("COUNT(Student ID) / COUNT(Course Name)".toList) =
      "COUNT(Student ID)".toList ++ (' ' :: ('/' :: (' ' :: "COUNT(Course Name)".toList)))
    from by decide]
  rw [replaceAll_head _ _ _ (by decide)]
  rw [replaceAll_no_occ "COUNT(Student ID)".toList _
    (' ' :: ('/' :: (' ' :: "COUNT(Course Name)".toList))) (by decide)]
  simp only [substChars]
  rw [replaceAll_skip (natChars_digits _)
    (show ("COUNT(Course Name)".toList).head? = some 'C' from rfl) (by decide)]
  rw [replaceAll_cons_skip (by decide), replaceAll_cons_skip (by decide),
    replaceAll_cons_skip (by decide), replaceAll_self _ _ (by decide)]

theorem evaluateFormula_count_div (df : Dataset)
    (h1 : "Student ID" ∈ df.cols) (h2 : "Course Name" ∈ df.cols) :
    evaluateFormula "COUNT(Student ID) / COUNT(Course Name)" df =
      (if colCount df "Course Name" = 0 then
        .error ("Could not evaluate formula: COUNT(Student ID) / COUNT(Course Name). " ++
          "Evaluation error: division by zero")
      else .ok ((colCount df "Student ID" : ℚ) / (colCount df "Course Name" : ℚ))) := by
  have hnp := no_paren_count_div (colCount df "Student ID") (colCount df "Course Name")
  have hev := evaluateFormula_eq "COUNT(Student ID) / COUNT(Course Name)" df
    (applyAggStage_count_div df h1 h2)
    (applyAggStage_no_match (findCalls_nil_no_paren _ hnp))
    (applyAggStage_no_match (findCalls_nil_no_paren _ hnp))
    (applyAggStage_no_match (findCalls_nil_no_paren _ hnp))
    (applyAggStage_no_match (findCalls_nil_no_paren _ hnp))
    (applyPctStage_no_match (findPctCalls_nil_no_paren hnp))
  rw [hev, evalResidual_div_natChars]
  by_cases hz : colCount df "Course Name" = 0
  · rw [if_pos hz, if_pos hz]
    simp only []
    decide
  · rw [if_neg hz, if_neg hz]

/-! ## `compute_indicator` result shapes -/

theorem computeIndicator_ok_shape (df : Dataset) (name formula : String)
    (criteria : List (String × Value)) {v : ℚ}
    (h : evaluateFormula formula (applyFilterCriteria df criteria) = .ok v) :
    computeIndicator df name formula criteria =
      { indicator_name := name, formula := formula, filter_criteria := criteria,
        value := some v,
        rows_processed := some (applyFilterCriteria df criteria).rows.length,
        total_rows := some df.rows.length, status := "success", error := none } := by
  simp only [computeIndicator, h]

theorem computeIndicator_error_shape (df : Dataset) (name formula : String)
    (criteria : List (String × Value)) {e : String}
    (h : evaluateFormula formula (applyFilterCriteria df criteria) = .error e) :
    computeIndicator df name formula criteria =
      { indicator_name := name, formula := formula, filter_criteria := criteria,
        value := none, rows_processed := none, total_rows := none,
        status := "error", error := some e } := by
  simp only [computeIndicator, h]

theorem computeMultipleIndicators_getElem (df : Dataset) (inds : List IndicatorDef)
    (i : Nat) :
    (computeMultipleIndicators df inds)[i]? =
      inds[i]?.map (fun ind => computeIndicator df ind.name ind.formula ind.filter_criteria) := by
  simp [computeMultipleIndicators]

/-! ## The missing-column scenario -/

theorem evaluateFormula_missing_col (fn : AggFn) (df : Dataset) (field : List Char)
    (hfne : field ≠ []) (hfcl : ∀ c ∈ field, isClassChar c = true)
    (hstrip : stripWS field = field) (hcol : String.mk field ∉ df.cols) :
    evaluateFormula (String.mk (fnChars fn ++ ('(' :: (field ++ [')'])))) df =
      .error (colNotFound (String.mk field) df.cols) := by
  rw [evaluateFormula_single_call fn df field hfne hfcl hstrip, if_neg hcol]

theorem computeIndicator_missing_col (fn : AggFn) (df : Dataset) (name : String)
    (field : List Char) (criteria : List (String × Value))
    (hfne : field ≠ []) (hfcl : ∀ c ∈ field, isClassChar c = true)
    (hstrip : stripWS field = field) (hcol : String.mk field ∉ df.cols) :
    computeIndicator df name (String.mk (fnChars fn ++ ('(' :: (field ++ [')'])))) criteria =
      { indicator_name := name,
        formula := String.mk (fnChars fn ++ ('(' :: (field ++ [')']))),
        filter_criteria := criteria,
        value := none, rows_processed := none, total_rows := none,
        status := "error",
        error := some (colNotFound (String.mk field) df.cols) } :=
  computeIndicator_error_shape df name _ criteria
    (evaluateFormula_missing_col fn (applyFilterCriteria df criteria) field hfne hfcl hstrip hcol)

/-! ## The `AVG`-with-no-numeric-values scenario -/

theorem evalResidual_nan : evalResidual ['n', 'a', 'n'] = .error "invalid syntax" := by
  decide

theorem evaluateFormula_avg_nan (df : Dataset) (field : List Char)
    (hfne : field ≠ []) (hfcl : ∀ c ∈ field, isClassChar c = true)
    (hstrip : stripWS field = field) (hcol : String.mk field ∈ df.cols)
    (hmean : colMean df (String.mk field) = none) :
    evaluateFormula (String.mk (fnChars .AVG ++ ('(' :: (field ++ [')'])))) df =
      .error ("Could not evaluate formula: " ++
        String.mk (fnChars .AVG ++ ('(' :: (field ++ [')']))) ++
        ". Evaluation error: invalid syntax") := by
  rw [evaluateFormula_single_call .AVG df field hfne hfcl hstrip]
  rw [if_pos hcol]
  simp only [substChars, hmean, Option.elim]
  rw [evalResidual_nan]
  simp only []
  rw [String.append_assoc]
  rfl

theorem computeIndicator_avg_nan (df : Dataset) (name : String) (field : List Char)
    (criteria : List (String × Value))
    (hfne : field ≠ []) (hfcl : ∀ c ∈ field, isClassChar c = true)
    (hstrip : stripWS field = field) (hcol : String.mk field ∈ df.cols)
    (hmean : colMean (applyFilterCriteria df criteria) (String.mk field) = none) :
    (computeIndicator df name
        (String.mk (fnChars .AVG ++ ('(' :: (field ++ [')'])))) criteria).value = none ∧
    (computeIndicator df name
        (String.mk (fnChars .AVG ++ ('(' :: (field ++ [')'])))) criteria).status = "error" := by
  rw [computeIndicator_error_shape df name _ criteria
    (evaluateFormula_avg_nan (applyFilterCriteria df criteria) field hfne hfcl hstrip hcol hmean)]
  exact ⟨rfl, rfl⟩

/-! ## The `PERCENTAGE` formula scenario -/

theorem evaluateFormula_pct (df : Dataset) (field Lbody lit : List Char) (n : Nat)
    (hfne : field ≠ []) (hfcl : ∀ c ∈ field, isClassChar c = true)
    (hstrip : stripWS field = field)
    (hL : pctLit (Lbody ++ [')']) = some (lit, n))
    (hLlen : (Lbody ++ [')']).length = n)
    (hLsp : ∀ c, (Lbody ++ [')']).head? = some c → isSpace c = false)
    (hLnp : ¬ '(' ∈ Lbody)
    (hcol : String.mk field ∈ df.cols) :
    evaluateFormula
      (String.mk (pctHead ++ (field ++ (',' :: (' ' :: (Lbody ++ [')'])))))) df =
      .ok (if df.rows.length = 0 then 0
        else ((df.rows.filter (fun r =>
            cellChars (getCell r (String.mk field)) =
              stripQuotes (stripWS lit))).length : ℚ) /
          (df.rows.length : ℚ) * 100) := by
  have hshape : pctHead ++ (field ++ (',' :: (' ' :: (Lbody ++ [')'])))) =
      ['P', 'E', 'R', 'C', 'E', 'N', 'T', 'A', 'G', 'E'] ++
        ('(' :: ((field ++ (',' :: (' ' :: Lbody))) ++ [')'])) := by
    simp [pctHead]
  have hB : ¬ '(' ∈ (field ++ (',' :: (' ' :: Lbody))) := by
    intro hmem
    rcases List.mem_append.mp hmem with h | h
    · exact isClassChar_not_lparen hfcl h
    · simp only [List.mem_cons] at h
      rcases h with h | h | h
      · exact absurd h (by decide)
      · exact absurd h (by decide)
      · exact hLnp h
  have hagg : ∀ g : AggFn,
      applyAggStage g df (pctHead ++ (field ++ (',' :: (' ' :: (Lbody ++ [')']))))) =
        .ok (pctHead ++ (field ++ (',' :: (' ' :: (Lbody ++ [')']))))) := by
    intro g
    apply applyAggStage_no_match
    rw [hshape]
    exact findCalls_nil_pct_shape g hB
  have hpct := applyPctStage_single df field (Lbody ++ [')']) lit n hfne hfcl hstrip
    hL hLlen hLsp
  rw [if_pos hcol] at hpct
  have hev := evaluateFormula_eq
    (String.mk (pctHead ++ (field ++ (',' :: (' ' :: (Lbody ++ [')'])))))) df
    (toList_mk _ ▸ hagg .COUNT) (hagg .SUM) (hagg .AVG) (hagg .MIN) (hagg .MAX) hpct
  rw [hev]
  by_cases hlen : df.rows.length = 0
  · rw [if_pos hlen, if_pos hlen]
    rw [show evalResidual ['0'] = .ok 0 from by decide]
  · rw [if_neg hlen, if_neg hlen]
    rw [evalResidual_floatChars _ (by positivity)]

/-! ## Filter characterization -/

theorem foldl_filter_criteria (df : Dataset) (criteria : List (String × Value)) :
    ∀ l : List Record,
      criteria.foldl
        (fun rows cv =>
          if cv.1 ∈ df.cols then rows.filter (fun r => pyEq (getCell r cv.1) cv.2)
          else rows) l =
      l.filter (fun r =>
        criteria.all (fun cv =>
          if cv.1 ∈ df.cols then pyEq (getCell r cv.1) cv.2 else true)) := by
  induction criteria with
  | nil => intro l; simp
  | cons cv cvs ih =>
    intro l
    rw [List.foldl_cons, ih]
    by_cases hmem : cv.1 ∈ df.cols
    · rw [if_pos hmem, List.filter_filter]
      apply List.filter_congr
      intro r _
      simp [List.all_cons, hmem, Bool.and_comm]
    · rw [if_neg hmem]
      apply List.filter_congr
      intro r _
      simp [List.all_cons, hmem]

theorem applyFilterCriteria_spec (df : Dataset) (criteria : List (String × Value)) :
    applyFilterCriteria df criteria =
      { cols := df.cols
        rows := df.rows.filter (fun r =>
          criteria.all (fun cv =>
            if cv.1 ∈ df.cols then pyEq (getCell r cv.1) cv.2 else true)) } := by
  rw [applyFilterCriteria]
  rw [foldl_filter_criteria df criteria df.rows]

/-! ## Aggregation grouping -/

theorem pushValue_map_fst (acc : List (List Char × AggCell)) (k : List Char) (v : ℚ) :
    (pushValue acc k v).map Prod.fst = acc.map Prod.fst := by
  rw [pushValue, List.map_map]
  apply List.map_congr_left
  intro p _
  by_cases hp : p.1 = k
  · simp [hp]
  · simp [hp]

theorem pushValue_mem {acc : List (List Char × AggCell)} {k : List Char} {v : ℚ}
    {p : List Char × AggCell} (hp : p ∈ pushValue acc k v) :
    ∃ q ∈ acc,
      p = if q.1 = k then (q.1, { q.2 with values := q.2.values ++ [v] }) else q := by
  rw [pushValue] at hp
  obtain ⟨q, hq, he⟩ := List.mem_map.mp hp
  exact ⟨q, hq, he.symm⟩

theorem pushValue_mem_of_mem {acc : List (List Char × AggCell)} {k : List Char} {v : ℚ}
    {q : List Char × AggCell} (hq : q ∈ acc) :
    (if q.1 = k then (q.1, { q.2 with values := q.2.values ++ [v] }) else q) ∈
      pushValue acc k v := by
  rw [pushValue]
  exact List.mem_map_of_mem _ hq

theorem pushValue_exists_fst {acc : List (List Char × AggCell)} (k : List Char) (v : ℚ)
    {key : List Char} (h : ∃ q ∈ acc, q.1 = key) :
    ∃ p ∈ pushValue acc k v, p.1 = key := by
  obtain ⟨q, hq, hqk⟩ := h
  refine ⟨_, pushValue_mem_of_mem hq, ?_⟩
  by_cases hqr : q.1 = k
  · rw [if_pos hqr]
    exact hqk
  · rw [if_neg hqr]
    exact hqk

theorem pushValue_step (layout : Layout) (data : List AggRecord) (r : AggRecord)
    (acc : List (List Char × AggCell))
    (h1 : (acc.map Prod.fst).Nodup)
    (h2 : ∀ p ∈ acc, p.2.values =
      (data.filter (fun x => cellKey layout x = p.1)).map (fun x => x.value))
    (h3 : ∀ x ∈ data, ∃ p ∈ acc, p.1 = cellKey layout x)
    (hkey : ∃ q ∈ acc, q.1 = cellKey layout r) :
    ((pushValue acc (cellKey layout r) r.value).map Prod.fst).Nodup ∧
    (∀ p ∈ pushValue acc (cellKey layout r) r.value, p.2.values =
      ((data ++ [r]).filter (fun x => cellKey layout x = p.1)).map (fun x => x.value)) ∧
    (∀ x ∈ data ++ [r], ∃ p ∈ pushValue acc (cellKey layout r) r.value,
      p.1 = cellKey layout x) := by
  refine ⟨?_, ?_, ?_⟩
  · rw [pushValue_map_fst]
    exact h1
  · intro p hp
    obtain ⟨q, hq, he⟩ := pushValue_mem hp
    by_cases hqk : q.1 = cellKey layout r
    · rw [if_pos hqk] at he
      subst he
      simp only []
      rw [List.filter_append, List.map_append, h2 q hq]
      congr 1
      simp [hqk]
    · rw [if_neg hqk] at he
      subst he
      have hr0 : List.filter (fun x => decide (cellKey layout x = p.1)) [r] = [] := by
        simp [Ne.symm hqk]
      rw [List.filter_append, hr0, List.append_nil]
      exact h2 _ hq
  · intro x hx
    rcases List.mem_append.mp hx with hx | hx
    · exact pushValue_exists_fst _ _ (h3 x hx)
    · rw [List.mem_singleton.mp hx]
      exact pushValue_exists_fst _ _ hkey

theorem insertRecord_step (layout : Layout) (data : List AggRecord)
    (acc : List (List Char × AggCell)) (r : AggRecord)
    (h1 : (acc.map Prod.fst).Nodup)
    (h2 : ∀ p ∈ acc, p.2.values =
      (data.filter (fun x => cellKey layout x = p.1)).map (fun x => x.value))
    (h3 : ∀ x ∈ data, ∃ p ∈ acc, p.1 = cellKey layout x) :
    ((insertRecord layout acc r).map Prod.fst).Nodup ∧
    (∀ p ∈ insertRecord layout acc r, p.2.values =
      ((data ++ [r]).filter (fun x => cellKey layout x = p.1)).map (fun x => x.value)) ∧
    (∀ x ∈ data ++ [r], ∃ p ∈ insertRecord layout acc r, p.1 = cellKey layout x) := by
  by_cases hany : acc.any (fun p => p.1 = cellKey layout r)
  · have hins : insertRecord layout acc r = pushValue acc (cellKey layout r) r.value := by
      simp only [insertRecord]
      rw [if_pos hany]
    rw [hins]
    have hkey : ∃ q ∈ acc, q.1 = cellKey layout r := by
      obtain ⟨q, hq, hqd⟩ := List.any_eq_true.mp hany
      exact ⟨q, hq, of_decide_eq_true hqd⟩
    exact pushValue_step layout data r acc h1 h2 h3 hkey
  · have hnone : ∀ q ∈ acc, ¬ q.1 = cellKey layout r := by
      intro q hq hqk
      exact hany (List.any_eq_true.mpr ⟨q, hq, decide_eq_true hqk⟩)
    have hins : insertRecord layout acc r =
        pushValue (acc ++ [(cellKey layout r,
          { row := getDimensionKey r layout.rows
            column := getDimensionKey r layout.columns
            values := [] })]) (cellKey layout r) r.value := by
      simp only [insertRecord]
      rw [if_neg hany]
    rw [hins]
    have hnotin : cellKey layout r ∉ acc.map Prod.fst := by
      intro hmem
      obtain ⟨q, hq, hqe⟩ := List.mem_map.mp hmem
      exact hnone q hq hqe
    have hdata0 : data.filter (fun x => cellKey layout x = cellKey layout r) = [] := by
      rw [List.filter_eq_nil_iff]
      intro x hx hkx
      obtain ⟨q, hq, hqk⟩ := h3 x hx
      exact hnone q hq (by rw [hqk, of_decide_eq_true hkx])
    apply pushValue_step layout data r _ ?n1 ?n2 ?n3 ?nkey
    case n1 =>
      rw [List.map_append]
      simp only [List.map_cons, List.map_nil]
      rw [List.nodup_append]
      refine ⟨h1, List.nodup_singleton _, ?_⟩
      intro a ha hb
      simp only [List.mem_singleton] at hb
      subst hb
      exact hnotin ha
    case n2 =>
      intro p hp
      rcases List.mem_append.mp hp with hp | hp
      · exact h2 p hp
      · rw [List.mem_singleton.mp hp]
        simp only []
        rw [show (data.filter (fun x =>
            cellKey layout x = (cellKey layout r,
              ({ row := getDimensionKey r layout.rows
                 column := getDimensionKey r layout.columns
                 values := [] } : AggCell)).1)) = [] from hdata0]
        rfl
    case n3 =>
      intro x hx
      obtain ⟨q, hq, hqk⟩ := h3 x hx
      exact ⟨q, List.mem_append_left _ hq, hqk⟩
    case nkey =>
      exact ⟨_, List.mem_append_right _ (List.mem_singleton_self _), rfl⟩

theorem aggregate_foldl_inv (layout : Layout) (data : List AggRecord) :
    ((data.foldl (insertRecord layout) []).map Prod.fst).Nodup ∧
    (∀ p ∈ data.foldl (insertRecord layout) [], p.2.values =
      (data.filter (fun x => cellKey layout x = p.1)).map (fun x => x.value)) ∧
    (∀ x ∈ data, ∃ p ∈ data.foldl (insertRecord layout) [], p.1 = cellKey layout x) := by
  induction data using List.reverseRecOn with
  | nil =>
    refine ⟨List.nodup_nil, ?_, ?_⟩
    · intro p hp
      cases hp
    · intro x hx
      cases hx
  | append_singleton data r ih =>
    rw [List.foldl_append, List.foldl_cons, List.foldl_nil]
    obtain ⟨h1, h2, h3⟩ := ih
    exact insertRecord_step layout data _ r h1 h2 h3

theorem aggregateData_eq (data : List AggRecord) (layout : Layout) :
    aggregateData data layout =
      (data.foldl (insertRecord layout) []).map (fun p => (p.1, finishCell p.2)) := by
  cases data with
  | nil => rfl
  | cons a l => rfl

theorem aggregateData_spec (data : List AggRecord) (layout : Layout) :
    ((aggregateData data layout).map Prod.fst).Nodup ∧
    (∀ p ∈ aggregateData data layout,
      p.2.values = (data.filter (fun x =>
        getDimensionKey x layout.rows ++ '_' :: getDimensionKey x layout.columns =
          p.1)).map (fun x => x.value) ∧
      p.2.sum = p.2.values.sum ∧ p.2.count = p.2.values.length ∧
      p.2.avg = (if p.2.values ≠ [] then p.2.values.sum / (p.2.values.length : ℚ) else 0)) ∧
    (∀ x ∈ data, ∃ p ∈ aggregateData data layout,
      p.1 = getDimensionKey x layout.rows ++ '_' :: getDimensionKey x layout.columns) := by
  obtain ⟨h1, h2, h3⟩ := aggregate_foldl_inv layout data
  rw [aggregateData_eq]
  refine ⟨?_, ?_, ?_⟩
  · rw [List.map_map]
    have : (Prod.fst ∘ fun p : List Char × AggCell => (p.1, finishCell p.2)) = Prod.fst := by
      funext p
      rfl
    rw [this]
    exact h1
  · intro p hp
    obtain ⟨q, hq, he⟩ := List.mem_map.mp hp
    subst he
    exact ⟨h2 q hq, rfl, rfl, rfl⟩
  · intro x hx
    obtain ⟨q, hq, hqk⟩ := h3 x hx
    exact ⟨(q.1, finishCell q.2), List.mem_map_of_mem _ hq, hqk⟩

/-! ## Cache lookup -/

theorem getFromCache_miss (store : CacheStore) (key : String) (now : Nat)
    (h : store.find? (liveRow key now) = none) :
    getFromCache store key now = (none, store) := by
  simp only [getFromCache, h]

theorem find_live_none_iff (store : CacheStore) (key : String) (now : Nat) :
    store.find? (liveRow key now) = none ↔
      ∀ r ∈ store, ¬ (r.cache_key = key ∧ now < r.expires_at) := by
  rw [List.find?_eq_none]
  constructor
  · intro h r hr hc
    exact h r hr (by simp [liveRow, hc.1, hc.2])
  · intro h r hr hl
    apply h r hr
    simpa [liveRow, Bool.and_eq_true, decide_eq_true_eq] using hl

theorem bumpHit_decomp (key : String) (now : Nat) :
    ∀ (store : CacheStore) (r : CacheRow), store.find? (liveRow key now) = some r →
      ∃ pre post, store = pre ++ r :: post ∧ (∀ q ∈ pre, liveRow key now q = false) ∧
        bumpHit key now store = pre ++ { r with hit_count := r.hit_count + 1 } :: post := by
  intro store
  induction store with
  | nil => intro r h; cases h
  | cons s rest ih =>
    intro r h
    by_cases hl : liveRow key now s
    · rw [List.find?_cons_of_pos _ hl] at h
      cases h
      refine ⟨[], rest, rfl, ?_, ?_⟩
      · intro q hq
        cases hq
      · simp only [bumpHit]
        rw [if_pos hl]
        rfl
    · rw [List.find?_cons_of_neg _ hl] at h
      obtain ⟨pre, post, hst, hpre, hb⟩ := ih r h
      refine ⟨s :: pre, post, by rw [List.cons_append, hst], ?_, ?_⟩
      · intro q hq
        rcases List.mem_cons.mp hq with hq | hq
        · rw [hq]
          exact Bool.eq_false_iff.mpr hl
        · exact hpre q hq
      · simp only [bumpHit]
        rw [if_neg hl, hb]
        rfl

theorem getFromCache_hit (store : CacheStore) (key : String) (now : Nat) {r : CacheRow}
    (h : store.find? (liveRow key now) = some r) :
    (getFromCache store key now).1 = some r.data ∧
    ∃ pre post, store = pre ++ r :: post ∧ (∀ q ∈ pre, liveRow key now q = false) ∧
      (getFromCache store key now).2 =
        pre ++ { r with hit_count := r.hit_count + 1 } :: post := by
  obtain ⟨pre, post, hst, hpre, hb⟩ := bumpHit_decomp key now store r h
  refine ⟨by simp [getFromCache, h], pre, post, hst, hpre, ?_⟩
  simpa [getFromCache, h] using hb

theorem getFromCache_fst_none_iff (store : CacheStore) (key : String) (now : Nat) :
    (getFromCache store key now).1 = none ↔
      ∀ r ∈ store, ¬ (r.cache_key = key ∧ now < r.expires_at) := by
  rw [← find_live_none_iff]
  cases h : store.find? (liveRow key now) with
  | none => simp [getFromCache, h]
  | some r => simp [getFromCache, h]

/-! ## Cache save and the `cache_key` uniqueness invariant -/

theorem saveToCache_preview (store : CacheStore) (key : String) (projectId : Int)
    (data : Json) (now : Nat) :
    saveToCache store key projectId none data now = store := rfl

theorem filter_key_of_nodup (key : String) :
    ∀ (store : CacheStore), cacheKeysUnique store →
      ∀ {r : CacheRow}, r ∈ store → r.cache_key = key →
        store.filter (fun q => q.cache_key == key) = [r] := by
  intro store
  induction store with
  | nil =>
    intro _ r hr
    cases hr
  | cons s rest ih =>
    intro hu r hr hrk
    have hu2 : (s.cache_key :: rest.map (fun q => q.cache_key)).Nodup := by
      simpa [cacheKeysUnique] using hu
    have hnd := List.nodup_cons.mp hu2
    rcases List.mem_cons.mp hr with hre | hre
    · subst hre
      rw [List.filter_cons_of_pos (by simp [hrk])]
      have hnil : rest.filter (fun q => q.cache_key == key) = [] := by
        rw [List.filter_eq_nil_iff]
        intro q hq hqk
        apply hnd.1
        rw [hrk, ← beq_iff_eq.mp hqk]
        exact List.mem_map_of_mem _ hq
      rw [hnil]
    · have hsne : ¬ (s.cache_key == key) = true := by
        intro hbeq
        apply hnd.1
        rw [beq_iff_eq.mp hbeq, ← hrk]
        exact List.mem_map_of_mem _ hre
      rw [List.filter_cons_of_neg (by simpa using hsne)]
      exact ih hnd.2 hre hrk

theorem upsertRow_map_key (store : CacheStore) (key : String) (projectId : Int)
    (vizId : Option Int) (data : Json) (now : Nat) :
    (upsertRow store key projectId vizId data now).map (fun r => r.cache_key) =
      (if store.any (fun r => r.cache_key == key) then
        store.map (fun r => r.cache_key)
      else store.map (fun r => r.cache_key) ++ [key]) := by
  by_cases h : store.any (fun r => r.cache_key == key)
  · rw [upsertRow, if_pos h, if_pos h, List.map_map]
    apply List.map_congr_left
    intro r _
    simp only [Function.comp_apply]
    split <;> rfl
  · rw [upsertRow, if_neg h, if_neg h]
    simp

theorem upsertRow_unique (store : CacheStore) (key : String) (projectId : Int)
    (vizId : Option Int) (data : Json) (now : Nat) (hu : cacheKeysUnique store) :
    cacheKeysUnique (upsertRow store key projectId vizId data now) := by
  rw [cacheKeysUnique, upsertRow_map_key]
  by_cases h : store.any (fun r => r.cache_key == key)
  · rw [if_pos h]
    exact hu
  · rw [if_neg h]
    have hkn : key ∉ store.map (fun r => r.cache_key) := by
      intro hmem
      obtain ⟨r, hr, hre⟩ := List.mem_map.mp hmem
      exact h (List.any_eq_true.mpr ⟨r, hr, by simp [hre]⟩)
    rw [List.nodup_append]
    refine ⟨hu, List.nodup_singleton _, ?_⟩
    intro a ha hb
    rw [List.mem_singleton.mp hb] at ha
    exact hkn ha

theorem saveToCache_unique (store : CacheStore) (key : String) (projectId : Int)
    (vizId : Option Int) (data : Json) (now : Nat) (hu : cacheKeysUnique store) :
    cacheKeysUnique (saveToCache store key projectId vizId data now) := by
  cases vizId with
  | none => exact hu
  | some i => exact upsertRow_unique store key projectId (some i) data now hu

theorem bumpHit_map_key (key : String) (now : Nat) :
    ∀ store : CacheStore,
      (bumpHit key now store).map (fun r => r.cache_key) =
        store.map (fun r => r.cache_key) := by
  intro store
  induction store with
  | nil => rfl
  | cons s rest ih =>
    simp only [bumpHit]
    by_cases hl : liveRow key now s
    · rw [if_pos hl]
      simp
    · rw [if_neg hl]
      simp [ih]

theorem getFromCache_unique (store : CacheStore) (key : String) (now : Nat)
    (hu : cacheKeysUnique store) : cacheKeysUnique (getFromCache store key now).2 := by
  cases h : store.find? (liveRow key now) with
  | none =>
    rw [getFromCache_miss store key now h]
    exact hu
  | some r =>
    have h2 : (getFromCache store key now).2 = bumpHit key now store := by
      simp [getFromCache, h]
    rw [h2, cacheKeysUnique, bumpHit_map_key]
    exact hu

theorem applyCacheOps_unique (ops : List CacheOp) :
    ∀ store : CacheStore, cacheKeysUnique store →
      cacheKeysUnique (applyCacheOps store ops) := by
  induction ops with
  | nil =>
    intro store hu
    exact hu
  | cons op rest ih =>
    intro store hu
    have hstep : cacheKeysUnique (applyCacheOp store op) := by
      cases op with
      | get key now => exact getFromCache_unique store key now hu
      | put key projectId vizId data now =>
        exact saveToCache_unique store key projectId vizId data now hu
    exact ih (applyCacheOp store op) hstep

theorem filter_map_key (key : String) (f : CacheRow → CacheRow)
    (hpres : ∀ r, (f r).cache_key = r.cache_key) :
    ∀ store : CacheStore,
      (store.map f).filter (fun r => r.cache_key == key) =
        (store.filter (fun r => r.cache_key == key)).map f := by
  intro store
  induction store with
  | nil => rfl
  | cons s rest ih =>
    rw [List.map_cons, List.filter_cons, List.filter_cons]
    by_cases hs : (s.cache_key == key) = true
    · rw [if_pos (by rw [hpres]; exact hs), if_pos hs, List.map_cons, ih]
    · rw [if_neg (by rw [hpres]; exact hs), if_neg hs, ih]

theorem saveToCache_spec (store : CacheStore) (key : String) (projectId : Int) (i : Int)
    (data : Json) (now : Nat) (hu : cacheKeysUnique store) :
    (((saveToCache store key projectId (some i) data now).filter
        (fun r => r.cache_key == key)).map (fun r => (r.data, r.expires_at)) =
      [(data, now + cacheTTL)]) ∧
    (∀ r ∈ saveToCache store key projectId (some i) data now,
      r.cache_key ≠ key → r ∈ store) ∧
    ((saveToCache store key projectId (some i) data now).length =
      (if store.any (fun r => r.cache_key == key) then store.length
       else store.length + 1)) := by
  by_cases h : store.any (fun r => r.cache_key == key)
  · have hup : saveToCache store key projectId (some i) data now =
        store.map (fun r =>
          if r.cache_key == key then
            { r with project_id := projectId, visualization_id := some i,
                     data := data, expires_at := now + cacheTTL }
          else r) := by
      show upsertRow store key projectId (some i) data now = _
      rw [upsertRow, if_pos h]
    obtain ⟨r0, hr0, hr0k⟩ := List.any_eq_true.mp h
    have hr0e : r0.cache_key = key := beq_iff_eq.mp hr0k
    have hpres : ∀ r : CacheRow, ((fun r : CacheRow =>
        if r.cache_key == key then
          { r with project_id := projectId, visualization_id := some i,
                   data := data, expires_at := now + cacheTTL }
        else r) r).cache_key = r.cache_key := by
      intro r
      simp only []
      split <;> rfl
    refine ⟨?_, ?_, ?_⟩
    · rw [hup, filter_map_key key _ hpres, filter_key_of_nodup key store hu hr0 hr0e]
      simp [hr0e]
    · intro r hr hrk
      rw [hup] at hr
      obtain ⟨q, hq, he⟩ := List.mem_map.mp hr
      by_cases hqk : (q.cache_key == key) = true
      · exfalso
        apply hrk
        rw [← he]
        rw [if_pos hqk]
        exact beq_iff_eq.mp hqk
      · rw [← he]
        rw [if_neg hqk]
        exact hq
    · rw [hup, List.length_map, if_pos h]
  · have hup : saveToCache store key projectId (some i) data now =
        store ++ [{ cache_key := key, project_id := projectId,
                    visualization_id := some i, data := data,
                    expires_at := now + cacheTTL, hit_count := 0 }] := by
      show upsertRow store key projectId (some i) data now = _
      rw [upsertRow, if_neg h]
    have hnone : ∀ r ∈ store, ¬ (r.cache_key == key) = true := by
      intro r hr hrk
      exact h (List.any_eq_true.mpr ⟨r, hr, hrk⟩)
    refine ⟨?_, ?_, ?_⟩
    · rw [hup, List.filter_append, List.filter_eq_nil_iff.mpr hnone]
      simp
    · intro r hr hrk
      rw [hup] at hr
      rcases List.mem_append.mp hr with hr | hr
      · exact hr
      · exfalso
        apply hrk
        rw [List.mem_singleton.mp hr]
    · rw [hup, List.length_append, if_neg h]
      rfl

/-! ## JSON serialization roundtrip -/

theorem jsonDepth_pos (v : Json) : 1 ≤ jsonDepth v := by
  cases v <;> simp [jsonDepth]

theorem jsonListDepth_pos (xs : JsonList) : 1 ≤ jsonListDepth xs := by
  cases xs <;> simp [jsonListDepth]

theorem jsonFieldsDepth_pos (kvs : JsonFields) : 1 ≤ jsonFieldsDepth kvs := by
  cases kvs <;> simp [jsonFieldsDepth]

theorem expectChars_append (p rest : List Char) : expectChars p (p ++ rest) = some rest := by
  induction p with
  | nil => rfl
  | cons c cs ih => simp [expectChars, ih]

theorem parseStrBody_esc (s : List Char) :
    ∀ rest, parseStrBody (escChars s ++ ('"' :: rest)) = some (s, rest) := by
  induction s with
  | nil =>
    intro rest
    simp only [escChars, List.nil_append]
    rw [parseStrBody.eq_def]
    simp
  | cons c cs ih =>
    intro rest
    by_cases hc : c = '"' ∨ c = '\\'
    · simp only [escChars]
      rw [if_pos hc]
      simp only [List.cons_append]
      rw [parseStrBody.eq_def]
      simp only []
      rw [if_neg (by decide), if_pos trivial]
      rw [ih rest]
      rfl
    · have hc1 : ¬ c = '"' := fun h => hc (Or.inl h)
      have hc2 : ¬ c = '\\' := fun h => hc (Or.inr h)
      simp only [escChars]
      rw [if_neg hc]
      simp only [List.cons_append]
      rw [parseStrBody.eq_def]
      simp only []
      rw [if_neg hc1, if_neg hc2]
      rw [ih rest]
      rfl

theorem isDigit_ne_special {c : Char} (h : c.isDigit = true) :
    c ≠ 'n' ∧ c ≠ 't' ∧ c ≠ 'f' ∧ c ≠ '"' ∧ c ≠ '-' ∧ c ≠ ']' ∧ c ≠ '}' ∧ c ≠ ',' := by
  rw [isDigit_iff] at h
  refine ⟨?_, ?_, ?_, ?_, ?_, ?_, ?_, ?_⟩ <;> (intro hc; subst hc; revert h; decide)

theorem intChars_head (n : Int) :
    ∃ c cs, intChars n = c :: cs ∧ (c = '-' ∨ c.isDigit = true) := by
  rw [intChars]
  by_cases hneg : n < 0
  · rw [if_pos hneg]
    exact ⟨'-', _, rfl, Or.inl rfl⟩
  · rw [if_neg hneg]
    cases hnc : natChars n.natAbs with
    | nil => exact absurd hnc (natChars_ne_nil _)
    | cons d ds =>
      exact ⟨d, ds, rfl, Or.inr (natChars_digits _ d (by
        rw [hnc]; exact List.mem_cons_self _ _))⟩

theorem dumpJson_head (v : Json) :
    ∃ c cs, dumpJson v = c :: cs ∧ c ≠ ']' ∧ c ≠ '}' ∧ c ≠ ',' := by
  cases v with
  | null => exact ⟨'n', _, rfl, by decide, by decide, by decide⟩
  | bool b =>
    cases b
    · exact ⟨'f', _, rfl, by decide, by decide, by decide⟩
    · exact ⟨'t', _, rfl, by decide, by decide, by decide⟩
  | num n =>
    obtain ⟨c, cs, he, hc⟩ := intChars_head n
    refine ⟨c, cs, he, ?_, ?_, ?_⟩ <;>
      (rcases hc with hc | hc
       · subst hc; decide
       · have hs := isDigit_ne_special hc
         first
           | exact hs.2.2.2.2.2.1
           | exact hs.2.2.2.2.2.2.1
           | exact hs.2.2.2.2.2.2.2)
  | str s => exact ⟨'"', _, rfl, by decide, by decide, by decide⟩
  | arr xs => exact ⟨'[', _, rfl, by decide, by decide, by decide⟩
  | obj kvs => exact ⟨'{', _, rfl, by decide, by decide, by decide⟩

theorem nonDigitStart_nil2 : nonDigitStart [] := fun _ hc => nomatch hc

theorem dumpElemsRest_head_cont (tl : JsonList) (rest : List Char) :
    nonDigitStart (dumpElemsRest tl ++ (']' :: rest)) := by
  intro c hc
  cases tl with
  | nil =>
    simp only [dumpElemsRest, List.nil_append, List.head?_cons] at hc
    cases hc
    decide
  | cons x tl' =>
    simp only [dumpElemsRest, List.cons_append, List.head?_cons] at hc
    cases hc
    decide

theorem dumpMembersRest_head_cont (kvs : JsonFields) (rest : List Char) :
    nonDigitStart (dumpMembersRest kvs ++ ('}' :: rest)) := by
  intro c hc
  cases kvs with
  | nil =>
    simp only [dumpMembersRest, List.nil_append, List.head?_cons] at hc
    cases hc
    decide
  | cons k v tl' =>
    simp only [dumpMembersRest, List.cons_append, List.head?_cons] at hc
    cases hc
    decide

theorem parseJson_num (n : Int) (f : Nat) (rest : List Char) (hrest : nonDigitStart rest) :
    parseJson (f + 1) (intChars n ++ rest) = some (.num n, rest) := by
  rw [intChars]
  by_cases hneg : n < 0
  · rw [if_pos hneg, List.cons_append]
    simp only [parseJson]
    rw [if_neg (by decide), if_neg (by decide), if_neg (by decide), if_neg (by decide),
      if_pos trivial]
    rw [takeWhile_run (natChars_digits _) (fun c hc => hrest c hc)]
    rw [if_neg (natChars_ne_nil _)]
    rw [decodeDigits_natChars, drop_run]
    have hval : -((n.natAbs : Nat) : Int) = n := by omega
    rw [hval]
  · rw [if_neg hneg]
    cases hnc : natChars n.natAbs with
    | nil => exact absurd hnc (natChars_ne_nil _)
    | cons d ds =>
      have hd : d.isDigit = true := natChars_digits _ d (by
        rw [hnc]; exact List.mem_cons_self _ _)
      have hne := isDigit_ne_special hd
      rw [List.cons_append]
      simp only [parseJson]
      rw [if_neg hne.1, if_neg hne.2.1, if_neg hne.2.2.1, if_neg hne.2.2.2.1,
        if_neg hne.2.2.2.2.1, if_pos hd]
      have hds : ∀ c ∈ ds, c.isDigit = true := fun c hc => natChars_digits _ c (by
        rw [hnc]; exact List.mem_cons_of_mem _ hc)
      rw [takeWhile_run hds (fun c hc => hrest c hc), drop_run]
      have hdec : decodeDigits (d :: ds) = n.natAbs := by
        rw [← hnc, decodeDigits_natChars]
      rw [hdec]
      have hval : ((n.natAbs : Nat) : Int) = n := by omega
      rw [hval]

theorem parse_dump_aux (N : Nat) :
    (∀ v : Json, jsonDepth v ≤ N →
      ∀ fuel rest, jsonDepth v ≤ fuel → nonDigitStart rest →
        parseJson fuel (dumpJson v ++ rest) = some (v, rest)) ∧
    (∀ xs : JsonList, jsonListDepth xs ≤ N →
      ∀ fuel rest, jsonListDepth xs ≤ fuel →
        parseElems fuel (dumpElems xs ++ (']' :: rest)) = some (xs, rest) ∧
        parseElemsRest fuel (dumpElemsRest xs ++ (']' :: rest)) = some (xs, rest)) ∧
    (∀ kvs : JsonFields, jsonFieldsDepth kvs ≤ N →
      ∀ fuel rest, jsonFieldsDepth kvs ≤ fuel →
        parseMembers fuel (dumpMembers kvs ++ ('}' :: rest)) = some (kvs, rest) ∧
        parseMembersRest fuel (dumpMembersRest kvs ++ ('}' :: rest)) = some (kvs, rest)) := by
  induction N with
  | zero =>
    refine ⟨?_, ?_, ?_⟩
    · intro v hv
      exact absurd hv (by have := jsonDepth_pos v; omega)
    · intro xs hxs
      exact absurd hxs (by have := jsonListDepth_pos xs; omega)
    · intro kvs hkvs
      exact absurd hkvs (by have := jsonFieldsDepth_pos kvs; omega)
  | succ N ih =>
    obtain ⟨ihJ, ihL, ihF⟩ := ih
    refine ⟨?_, ?_, ?_⟩
    · intro v hv fuel rest hfuel hrest
      cases fuel with
      | zero => exact absurd hfuel (by have := jsonDepth_pos v; omega)
      | succ f =>
        cases v with
        | null =>
          simp [dumpJson, parseJson, expectChars]
        | bool b =>
          cases b
          · simp [dumpJson, parseJson, expectChars]
          · simp [dumpJson, parseJson, expectChars]
        | num n => exact parseJson_num n f rest hrest
        | str s =>
          rw [show dumpJson (.str s) ++ rest =
              '"' :: (escChars s.toList ++ ('"' :: rest)) from by
            simp [dumpJson, dumpStr]]
          simp only [parseJson]
          rw [if_neg (by decide), if_neg (by decide), if_neg (by decide), if_pos trivial]
          rw [parseStrBody_esc]
          rfl
        | arr xs =>
          have hxs : jsonListDepth xs ≤ N := by
            simp only [jsonDepth] at hv; omega
          have hxf : jsonListDepth xs ≤ f := by
            simp only [jsonDepth] at hfuel; omega
          rw [show dumpJson (.arr xs) ++ rest =
              '[' :: (dumpElems xs ++ (']' :: rest)) from by
            simp [dumpJson]]
          simp only [parseJson]
          rw [if_neg (by decide), if_neg (by decide), if_neg (by decide),
            if_neg (by decide), if_neg (by decide), if_neg (by decide), if_pos trivial]
          rw [(ihL xs hxs f rest hxf).1]
          rfl
        | obj kvs =>
          have hks : jsonFieldsDepth kvs ≤ N := by
            simp only [jsonDepth] at hv; omega
          have hkf : jsonFieldsDepth kvs ≤ f := by
            simp only [jsonDepth] at hfuel; omega
          rw [show dumpJson (.obj kvs) ++ rest =
              '{' :: (dumpMembers kvs ++ ('}' :: rest)) from by
            simp [dumpJson]]
          simp only [parseJson]
          rw [if_neg (by decide), if_neg (by decide), if_neg (by decide),
            if_neg (by decide), if_neg (by decide), if_neg (by decide),
            if_neg (by decide), if_pos trivial]
          rw [(ihF kvs hks f rest hkf).1]
          rfl
    · intro xs hxs fuel rest hfuel
      cases fuel with
      | zero => exact absurd hfuel (by have := jsonListDepth_pos xs; omega)
      | succ f =>
        cases xs with
        | nil =>
          constructor
          · simp [dumpElems, parseElems]
          · simp [dumpElemsRest, parseElemsRest.eq_def]
        | cons x tl =>
          have hdx : jsonDepth x ≤ N := by
            simp only [jsonListDepth] at hxs; omega
          have hdt : jsonListDepth tl ≤ N := by
            simp only [jsonListDepth] at hxs; omega
          have hfx : jsonDepth x ≤ f := by
            simp only [jsonListDepth] at hfuel; omega
          have hft : jsonListDepth tl ≤ f := by
            simp only [jsonListDepth] at hfuel; omega
          obtain ⟨c, cs, hce, hc1, hc2, hc3⟩ := dumpJson_head x
          have hparse : parseJson f (dumpJson x ++ (dumpElemsRest tl ++ (']' :: rest))) =
              some (x, dumpElemsRest tl ++ (']' :: rest)) :=
            ihJ x hdx f _ hfx (dumpElemsRest_head_cont tl rest)
          have htl := (ihL tl hdt f rest hft).2
          constructor
          · rw [show dumpElems (.cons x tl) ++ (']' :: rest) =
                dumpJson x ++ (dumpElemsRest tl ++ (']' :: rest)) from by
              simp [dumpElems]]
            rw [hce, List.cons_append]
            simp only [parseElems]
            rw [if_neg hc1]
            rw [← List.cons_append, ← hce, hparse]
            simp only []
            rw [htl]
            rfl
          · rw [show dumpElemsRest (.cons x tl) ++ (']' :: rest) =
                ',' :: (' ' :: (dumpJson x ++ (dumpElemsRest tl ++ (']' :: rest)))) from by
              simp [dumpElemsRest]]
            simp only [parseElemsRest]
            rw [if_neg (by decide), if_pos trivial]
            rw [hparse]
            simp only []
            rw [htl]
            rfl
    · intro kvs hkvs fuel rest hfuel
      cases fuel with
      | zero => exact absurd hfuel (by have := jsonFieldsDepth_pos kvs; omega)
      | succ f =>
        cases kvs with
        | nil =>
          constructor
          · simp [dumpMembers, parseMembers]
          · simp [dumpMembersRest, parseMembersRest.eq_def]
        | cons k v tl =>
          have hdv : jsonDepth v ≤ N := by
            simp only [jsonFieldsDepth] at hkvs; omega
          have hdt : jsonFieldsDepth tl ≤ N := by
            simp only [jsonFieldsDepth] at hkvs; omega
          have hfv : jsonDepth v ≤ f := by
            simp only [jsonFieldsDepth] at hfuel; omega
          have hft : jsonFieldsDepth tl ≤ f := by
            simp only [jsonFieldsDepth] at hfuel; omega
          have hparse : parseJson f (dumpJson v ++ (dumpMembersRest tl ++ ('}' :: rest))) =
              some (v, dumpMembersRest tl ++ ('}' :: rest)) :=
            ihJ v hdv f _ hfv (dumpMembersRest_head_cont tl rest)
          have htl := (ihF tl hdt f rest hft).2
          constructor
          · rw [show dumpMembers (.cons k v tl) ++ ('}' :: rest) =
                '"' :: (escChars k.toList ++ ('"' :: (':' :: (' ' ::
                  (dumpJson v ++ (dumpMembersRest tl ++ ('}' :: rest))))))) from by
              simp [dumpMembers, dumpStr]]
            simp only [parseMembers]
            rw [if_neg (by decide)]
            simp only [parseMember]
            rw [parseStrBody_esc]
            simp only []
            rw [hparse]
            simp only []
            rw [htl]
            rfl
          · rw [show dumpMembersRest (.cons k v tl) ++ ('}' :: rest) =
                ',' :: (' ' :: ('"' :: (escChars k.toList ++ ('"' :: (':' :: (' ' ::
                  (dumpJson v ++ (dumpMembersRest tl ++ ('}' :: rest))))))))) from by
              simp [dumpMembersRest, dumpStr]]
            simp only [parseMembersRest]
            rw [if_neg (by decide), if_pos trivial]
            cases f with
            | zero =>
              exact absurd hfv (by have := jsonDepth_pos v; omega)
            | succ g =>
              have hsum : jsonDepth v + jsonFieldsDepth tl + 1 ≤ g + 2 := by
                simp only [jsonFieldsDepth] at hfuel
                omega
              have hgv : jsonDepth v ≤ g := by
                have := jsonFieldsDepth_pos tl; omega
              have hgt : jsonFieldsDepth tl ≤ g := by
                have := jsonDepth_pos v; omega
              have hparse2 : parseJson g (dumpJson v ++ (dumpMembersRest tl ++ ('}' :: rest))) =
                  some (v, dumpMembersRest tl ++ ('}' :: rest)) :=
                ihJ v hdv g _ hgv (dumpMembersRest_head_cont tl rest)
              have htl2 := (ihF tl hdt g rest hgt).2
              simp only [parseMember]
              rw [parseStrBody_esc]
              simp only []
              rw [hparse2]
              simp only []
              rw [htl2]
              rfl

theorem dumpJson_inj {v w : Json} (h : dumpJson v = dumpJson w) : v = w := by
  have h1 := (parse_dump_aux (jsonDepth v)).1 v le_rfl (jsonDepth v + jsonDepth w) []
    (by omega) nonDigitStart_nil2
  have h2 := (parse_dump_aux (jsonDepth w)).1 w le_rfl (jsonDepth v + jsonDepth w) []
    (by omega) nonDigitStart_nil2
  rw [h] at h1
  rw [h1] at h2
  exact (Prod.ext_iff.mp (Option.some.inj h2)).1

theorem generateCacheKey_eq_iff (v w : Visualization) :
    generateCacheKey v = generateCacheKey w ↔
      (v.dimensions = w.dimensions ∧ v.filters = w.filters ∧
       updatedAtComponent v = updatedAtComponent w ∧
       vizIdComponent v = vizIdComponent w) := by
  constructor
  · intro h
    have hj : cacheKeyJson v = cacheKeyJson w := by
      apply dumpJson_inj
      exact congrArg String.data h
    rw [cacheKeyJson, cacheKeyJson] at hj
    injection hj with hobj
    injection hobj with hk1 hdim htl
    injection htl with hk2 hfil htl2
    injection htl2 with hk3 hupd htl3
    injection htl3 with hk4 hviz
    exact ⟨hdim, hfil, hupd, hviz⟩
  · intro ⟨h1, h2, h3, h4⟩
    rw [generateCacheKey, generateCacheKey, cacheKeyJson, cacheKeyJson, h1, h2, h3, h4]

theorem generateCacheKey_layout_invariant (v : Visualization) (l : Json) :
    generateCacheKey { v with layout := l } = generateCacheKey v := rfl

theorem generateCacheKey_updatedAt_ne (v w : Visualization) (u u2 : String)
    (hv : v.updated_at = some u) (hw : w.updated_at = some u2) (hne : u ≠ u2) :
    generateCacheKey v ≠ generateCacheKey w := by
  intro h
  have := (generateCacheKey_eq_iff v w).mp h
  have hc := this.2.2.1
  rw [updatedAtComponent, updatedAtComponent, hv, hw] at hc
  injection hc with hc2
  exact hne hc2

/-! # Claim theorems -/

/-- C1 (amended): the cache fingerprint is exactly determined by the
`dimensions`, `filters`, `updated_at` and `viz_id` components of the key
data: two visualizations share a fingerprint iff those four components
agree; the `layout` field is not part of the fingerprint at all, and two
visualizations with different (present) `updated_at` stamps always get
different fingerprints. -/
theorem claim_C1 :
    (∀ v w : Visualization, generateCacheKey v = generateCacheKey w ↔
      (v.dimensions = w.dimensions ∧ v.filters = w.filters ∧
       updatedAtComponent v = updatedAtComponent w ∧
       vizIdComponent v = vizIdComponent w)) ∧
    (∀ (v : Visualization) (l : Json),
      generateCacheKey { v with layout := l } = generateCacheKey v) ∧
    (∀ (v w : Visualization) (u u2 : String),
      v.updated_at = some u → w.updated_at = some u2 → u ≠ u2 →
      generateCacheKey v ≠ generateCacheKey w) :=
  ⟨generateCacheKey_eq_iff, generateCacheKey_layout_invariant,
   generateCacheKey_updatedAt_ne⟩

/-- C1 witness: two concrete visualizations that differ only in their
`updated_at` stamp get different fingerprints. -/
theorem claim_C1_witness :
    generateCacheKey { id := some 1, dimensions := .null, filters := .null,
                       layout := .null, updated_at := some "2024-01-01" } ≠
    generateCacheKey { id := some 1, dimensions := .null, filters := .null,
                       layout := .null, updated_at := some "2024-01-02" } :=
  claim_C1.2.2 _ _ "2024-01-01" "2024-01-02" rfl rfl (by decide)

/-- C1 counterexample to the original claim: changing only `layout` does
not change the fingerprint (`_generate_cache_key` never reads `layout`). -/
theorem claim_C1_cex :
    generateCacheKey { id := some 1, dimensions := .null, filters := .null,
                       layout := .null, updated_at := some "2024-01-01" } =
    generateCacheKey { id := some 1, dimensions := .null, filters := .null,
                       layout := .str "changed", updated_at := some "2024-01-01" } ∧
    (Json.null ≠ Json.str "changed") :=
  ⟨rfl, fun h => Json.noConfusion h⟩

/-- C2: a formula referencing a column the dataset lacks evaluates to the
`ValueError` message naming the missing column and listing the available
columns; `compute_indicator` captures any formula failure into a
`status="error"` result with the message and a null value; and
`compute_multiple_indicators` computes each indicator independently, so one
failure cannot abort the others. -/
theorem claim_C2 :
    (∀ (fn : AggFn) (df : Dataset) (field : List Char),
      field ≠ [] → (∀ c ∈ field, isClassChar c = true) → stripWS field = field →
      String.mk field ∉ df.cols →
      evaluateFormula (String.mk (fnChars fn ++ ('(' :: (field ++ [')'])))) df =
        .error (colNotFound (String.mk field) df.cols)) ∧
    (∀ (df : Dataset) (name formula : String) (criteria : List (String × Value))
      (e : String),
      evaluateFormula formula (applyFilterCriteria df criteria) = .error e →
      computeIndicator df name formula criteria =
        { indicator_name := name, formula := formula, filter_criteria := criteria,
          value := none, rows_processed := none, total_rows := none,
          status := "error", error := some e }) ∧
    (∀ (df : Dataset) (inds : List IndicatorDef) (i : Nat),
      (computeMultipleIndicators df inds)[i]? =
        inds[i]?.map (fun ind =>
          computeIndicator df ind.name ind.formula ind.filter_criteria)) :=
  ⟨fun fn df field h1 h2 h3 h4 => evaluateFormula_missing_col fn df field h1 h2 h3 h4,
   fun df name formula criteria e h => computeIndicator_error_shape df name formula criteria h,
   computeMultipleIndicators_getElem⟩

/-- C2 witness: `COUNT(missing)` over a dataset with only column `a` yields
exactly the missing-column message, and the wrapped indicator result. -/
theorem claim_C2_witness :
    evaluateFormula "COUNT(missing)" { cols := ["a"], rows := [] } =
      .error (colNotFound "missing" ["a"]) :=
  claim_C2.1 .COUNT { cols := ["a"], rows := [] }
    ['m', 'i', 's', 's', 'i', 'n', 'g'] (by decide) (by decide) (by decide) (by decide)

/-- C3 (amended): when an aggregate produces `NaN` — `AVG` over a column
with no numeric values, e.g. after all rows are filtered out — the `eval`
of the substituted formula raises, `compute_indicator` catches the
exception, and the result carries `value = null` with `status = "error"`
(not `"success"`, not a NaN value, and no uncaught exception). -/
theorem claim_C3 (df : Dataset) (name : String) (field : List Char)
    (criteria : List (String × Value))
    (hfne : field ≠ []) (hfcl : ∀ c ∈ field, isClassChar c = true)
    (hstrip : stripWS field = field) (hcol : String.mk field ∈ df.cols)
    (hmean : colMean (applyFilterCriteria df criteria) (String.mk field) = none) :
    (computeIndicator df name
        (String.mk (fnChars .AVG ++ ('(' :: (field ++ [')'])))) criteria).value = none ∧
    (computeIndicator df name
        (String.mk (fnChars .AVG ++ ('(' :: (field ++ [')'])))) criteria).status =
      "error" :=
  computeIndicator_avg_nan df name field criteria hfne hfcl hstrip hcol hmean

/-- C3 witness: `AVG(x)` over an empty dataset with column `x` returns a
null value and an error status. -/
theorem claim_C3_witness :
    (computeIndicator { cols := ["x"], rows := [] } "i" "AVG(x)" []).value = none ∧
    (computeIndicator { cols := ["x"], rows := [] } "i" "AVG(x)" []).status = "error" :=
  claim_C3 { cols := ["x"], rows := [] } "i" ['x'] [] (by decide) (by decide)
    (by decide) (by decide) (by decide)

/-- C3 counterexample to the original claim: in the `AVG`-over-no-numeric
case the status is `"error"`, not the claimed `"success"`. -/
theorem claim_C3_cex :
    (computeIndicator { cols := ["x"], rows := [] } "i" "AVG(x)" []).status ≠
      "success" ∧
    (computeIndicator { cols := ["x"], rows := [] } "i" "AVG(x)" []).value = none := by
  decide

/-- C4: the formula `COUNT(Student ID) / COUNT(Course Name)` substitutes
both multi-word field references (the greedy `[\w\s\-\.]+` pattern matches
names with spaces up to the closing parenthesis) with their non-missing
counts, and the final arithmetic evaluates to the quotient of the two
counts. -/
theorem claim_C4 (df : Dataset)
    (h1 : "Student ID" ∈ df.cols) (h2 : "Course Name" ∈ df.cols)
    (hnz : colCount df "Course Name" ≠ 0) :
    evaluateFormula "COUNT(Student ID) / COUNT(Course Name)" df =
      .ok ((colCount df "Student ID" : ℚ) / (colCount df "Course Name" : ℚ)) := by
  rw [evaluateFormula_count_div df h1 h2, if_neg hnz]

/-- C4 witness: both multi-word columns resolve on a concrete dataset with
two students and one course record, giving `2 / 1`. -/
theorem claim_C4_witness :
    evaluateFormula "COUNT(Student ID) / COUNT(Course Name)"
      { cols := ["Student ID", "Course Name"],
        rows := [[("Student ID", .int 7)],
                 [("Student ID", .int 8), ("Course Name", .str "Math")]] } =
      .ok ((2 : ℚ) / 1) := by
  have hc1 : colCount
      { cols := ["Student ID", "Course Name"],
        rows := [[("Student ID", .int 7)],
                 [("Student ID", .int 8), ("Course Name", .str "Math")]] }
      "Student ID" = 2 := by decide
  have hc2 : colCount
      { cols := ["Student ID", "Course Name"],
        rows := [[("Student ID", .int 7)],
                 [("Student ID", .int 8), ("Course Name", .str "Math")]] }
      "Course Name" = 1 := by decide
  rw [claim_C4 _ (by decide) (by decide) (by decide), hc1, hc2]
  norm_num

/-- C5: cache lookup returns a payload iff the store holds a row for the
key whose `expires_at` is strictly later than now; a hit increments that
row's `hit_count` by exactly one and persists it (all other rows
untouched); a miss — key absent or row expired — returns nothing and
leaves the store exactly as it was, deleting nothing. -/
theorem claim_C5 :
    (∀ (store : CacheStore) (key : String) (now : Nat),
      (getFromCache store key now).1 = none ↔
        ∀ r ∈ store, ¬ (r.cache_key = key ∧ now < r.expires_at)) ∧
    (∀ (store : CacheStore) (key : String) (now : Nat),
      store.find? (liveRow key now) = none →
      getFromCache store key now = (none, store)) ∧
    (∀ (store : CacheStore) (key : String) (now : Nat) (r : CacheRow),
      store.find? (liveRow key now) = some r →
      (getFromCache store key now).1 = some r.data ∧
      ∃ pre post, store = pre ++ r :: post ∧
        (∀ q ∈ pre, liveRow key now q = false) ∧
        (getFromCache store key now).2 =
          pre ++ { r with hit_count := r.hit_count + 1 } :: post) :=
  ⟨getFromCache_fst_none_iff, getFromCache_miss,
   fun store key now r h => getFromCache_hit store key now h⟩

/-- C5 witness: a concrete one-row store; an unexpired lookup returns the
payload and bumps the hit count, keeping the row. -/
theorem claim_C5_witness :
    (getFromCache [{ cache_key := "k", project_id := 1, visualization_id := some 2,
                     data := .null, expires_at := 5, hit_count := 0 }] "k" 3).1 =
      some Json.null ∧
    ∃ pre post,
      [({ cache_key := "k", project_id := 1, visualization_id := some 2,
          data := .null, expires_at := 5, hit_count := 0 } : CacheRow)] =
        pre ++ { cache_key := "k", project_id := 1, visualization_id := some 2,
                 data := .null, expires_at := 5, hit_count := 0 } :: post ∧
      (∀ q ∈ pre, liveRow "k" 3 q = false) ∧
      (getFromCache [{ cache_key := "k", project_id := 1, visualization_id := some 2,
                       data := .null, expires_at := 5, hit_count := 0 }] "k" 3).2 =
        pre ++ { cache_key := "k", project_id := 1, visualization_id := some 2,
                 data := .null, expires_at := 5, hit_count := 0 + 1 } :: post :=
  claim_C5.2.2
    [{ cache_key := "k", project_id := 1, visualization_id := some 2,
       data := .null, expires_at := 5, hit_count := 0 }] "k" 3
    { cache_key := "k", project_id := 1, visualization_id := some 2,
      data := .null, expires_at := 5, hit_count := 0 } rfl

/-- C6: saving with an unsaved (id-less) preview visualization is a no-op;
otherwise the save upserts: afterwards exactly one row carries the
fingerprint, holding the new payload with `expires_at = now + 24` hours,
all other rows are unchanged, and the row count grows only when the key
was absent; and `cache_key` uniqueness is preserved by every sequence of
get/put operations. -/
theorem claim_C6 :
    (∀ (store : CacheStore) (key : String) (projectId : Int) (data : Json) (now : Nat),
      saveToCache store key projectId none data now = store) ∧
    (∀ (store : CacheStore) (key : String) (projectId i : Int) (data : Json) (now : Nat),
      cacheKeysUnique store →
      (((saveToCache store key projectId (some i) data now).filter
          (fun r => r.cache_key == key)).map (fun r => (r.data, r.expires_at)) =
        [(data, now + cacheTTL)]) ∧
      (∀ r ∈ saveToCache store key projectId (some i) data now,
        r.cache_key ≠ key → r ∈ store) ∧
      ((saveToCache store key projectId (some i) data now).length =
        (if store.any (fun r => r.cache_key == key) then store.length
         else store.length + 1))) ∧
    (∀ (store : CacheStore) (ops : List CacheOp),
      cacheKeysUnique store → cacheKeysUnique (applyCacheOps store ops)) :=
  ⟨saveToCache_preview,
   fun store key projectId i data now hu => saveToCache_spec store key projectId i data now hu,
   fun store ops hu => applyCacheOps_unique ops store hu⟩

/-- C6 witness: saving into an empty store creates the single row for the
key with the 24-hour expiry. -/
theorem claim_C6_witness :
    ((saveToCache [] "k" 5 (some 1) .null 3).filter
        (fun r => r.cache_key == "k")).map (fun r => (r.data, r.expires_at)) =
      [(Json.null, 3 + cacheTTL)] :=
  (claim_C6.2.1 [] "k" 5 1 .null 3 List.nodup_nil).1

/-- C7 (amended): a successful computation carries
`rows_processed = len(filtered)`, `total_rows = len(dataset)`,
`status = "success"` and the computed value; an error result carries
neither `rows_processed` nor `total_rows` — the error-branch dictionary of
`compute_indicator` simply omits those keys. -/
theorem claim_C7 :
    (∀ (df : Dataset) (name formula : String) (criteria : List (String × Value))
      (v : ℚ),
      evaluateFormula formula (applyFilterCriteria df criteria) = .ok v →
      (computeIndicator df name formula criteria).rows_processed =
        some (applyFilterCriteria df criteria).rows.length ∧
      (computeIndicator df name formula criteria).total_rows = some df.rows.length ∧
      (computeIndicator df name formula criteria).status = "success" ∧
      (computeIndicator df name formula criteria).value = some v) ∧
    (∀ (df : Dataset) (name formula : String) (criteria : List (String × Value))
      (e : String),
      evaluateFormula formula (applyFilterCriteria df criteria) = .error e →
      (computeIndicator df name formula criteria).rows_processed = none ∧
      (computeIndicator df name formula criteria).total_rows = none) := by
  constructor
  · intro df name formula criteria v h
    rw [computeIndicator_ok_shape df name formula criteria h]
    exact ⟨rfl, rfl, rfl, rfl⟩
  · intro df name formula criteria e h
    rw [computeIndicator_error_shape df name formula criteria h]
    exact ⟨rfl, rfl⟩

/-- C7 witness: a successful `COUNT(x)` computation carries the row
counters. -/
theorem claim_C7_witness :
    (computeIndicator { cols := ["x"], rows := [[("x", .int 1)]] } "i" "COUNT(x)"
        []).rows_processed =
      some ((applyFilterCriteria { cols := ["x"], rows := [[("x", .int 1)]] }
        []).rows.length) ∧
    (computeIndicator { cols := ["x"], rows := [[("x", .int 1)]] } "i" "COUNT(x)"
        []).total_rows =
      some ([[(("x" : String), Value.int 1)]] : List Record).length ∧
    (computeIndicator { cols := ["x"], rows := [[("x", .int 1)]] } "i" "COUNT(x)"
        []).status = "success" ∧
    (computeIndicator { cols := ["x"], rows := [[("x", .int 1)]] } "i" "COUNT(x)"
        []).value = some 1 :=
  claim_C7.1 { cols := ["x"], rows := [[("x", .int 1)]] } "i" "COUNT(x)" [] 1
    (by decide)

/-- C7 counterexample to the original claim: an error result (here a
missing column) has no `rows_processed` and no `total_rows` key. -/
theorem claim_C7_cex :
    (computeIndicator { cols := [], rows := [] } "i" "COUNT(x)" []).rows_processed =
      none ∧
    (computeIndicator { cols := [], rows := [] } "i" "COUNT(x)" []).total_rows = none ∧
    (computeIndicator { cols := [], rows := [] } "i" "COUNT(x)" []).status = "error" := by
  decide

/-- C8: filtering retains exactly the rows whose cell at every criteria
field that is a dataset column compares equal to the criterion value;
criteria fields outside the schema are skipped without error; the result
is a fresh dataset value built from the input (the source filters a copy,
leaving the input dataset unchanged). -/
theorem claim_C8 (df : Dataset) (criteria : List (String × Value)) :
    applyFilterCriteria df criteria =
      { cols := df.cols
        rows := df.rows.filter (fun r =>
          criteria.all (fun cv =>
            if cv.1 ∈ df.cols then pyEq (getCell r cv.1) cv.2 else true)) } :=
  applyFilterCriteria_spec df criteria

/-- C9: aggregation returns an empty mapping on empty input; a missing
dimension value contributes the empty string to the key; cell keys are
`row_key ++ "_" ++ col_key` built from the dimension lists in order; the
grouped cells have pairwise distinct keys, each cell accumulates exactly
the values of the records with its key in arrival order (with `sum`,
`count` and `avg` computed from them), and every record lands in a cell
with its key. -/
theorem claim_C9 (data : List AggRecord) (layout : Layout) :
    aggregateData [] layout = [] ∧
    (∀ (x : AggRecord) (d : String), aggGet x d = none →
      getDimensionKey x [d] = []) ∧
    ((aggregateData data layout).map Prod.fst).Nodup ∧
    (∀ p ∈ aggregateData data layout,
      p.2.values = (data.filter (fun x =>
        getDimensionKey x layout.rows ++ '_' :: getDimensionKey x layout.columns =
          p.1)).map (fun x => x.value) ∧
      p.2.sum = p.2.values.sum ∧ p.2.count = p.2.values.length ∧
      p.2.avg = (if p.2.values ≠ [] then
        p.2.values.sum / (p.2.values.length : ℚ) else 0)) ∧
    (∀ x ∈ data, ∃ p ∈ aggregateData data layout,
      p.1 = getDimensionKey x layout.rows ++ '_' ::
        getDimensionKey x layout.columns) := by
  refine ⟨rfl, ?_, (aggregateData_spec data layout).1,
    (aggregateData_spec data layout).2.1, (aggregateData_spec data layout).2.2⟩
  intro x d h
  simp [getDimensionKey, h, List.intercalate]

/-- C9 witness: a record lacking the dimension key contributes the empty
string. -/
theorem claim_C9_witness :
    getDimensionKey { value := 0, attrs := [] } ["region"] = [] :=
  (claim_C9 [] { rows := [], columns := [] }).2.1
    { value := 0, attrs := [] } "region" (by decide)

/-- C10: `PERCENTAGE(field, value)` counts a row iff the `astype(str)`
rendering of the cell equals the literal text with quotes and whitespace
stripped — string comparison, so the int cell `25` matches the literal
`25` and the quoted literal, while filter criteria equality (`pyEq`) does
not identify the int `25` with the string `"25"`. -/
theorem claim_C10 :
    (∀ (df : Dataset) (field Lbody lit : List Char) (n : Nat),
      field ≠ [] → (∀ c ∈ field, isClassChar c = true) → stripWS field = field →
      pctLit (Lbody ++ [')']) = some (lit, n) → (Lbody ++ [')']).length = n →
      (∀ c, (Lbody ++ [')']).head? = some c → isSpace c = false) →
      ¬ '(' ∈ Lbody → String.mk field ∈ df.cols →
      evaluateFormula
        (String.mk (pctHead ++ (field ++ (',' :: (' ' :: (Lbody ++ [')'])))))) df =
        .ok (if df.rows.length = 0 then 0
          else ((df.rows.filter (fun r =>
              cellChars (getCell r (String.mk field)) =
                stripQuotes (stripWS lit))).length : ℚ) /
            (df.rows.length : ℚ) * 100)) ∧
    (cellChars (.int 25) = stripQuotes (stripWS ['2', '5']) ∧
     cellChars (.int 25) = stripQuotes (stripWS ['\'', '2', '5', '\'']) ∧
     pyEq (.int 25) (.str "25") = false) := by
  constructor
  · intro df field Lbody lit n h1 h2 h3 h4 h5 h6 h7 h8
    exact evaluateFormula_pct df field Lbody lit n h1 h2 h3 h4 h5 h6 h7 h8
  · refine ⟨?_, ?_, ?_⟩ <;> decide

/-- C10 witness: `PERCENTAGE(x, 25)` over one row holding the int `25`
counts that row by string comparison. -/
theorem claim_C10_witness :
    evaluateFormula
      (String.mk (pctHead ++ (['x'] ++ (',' :: (' ' :: (['2', '5'] ++ [')']))))))
      { cols := ["x"], rows := [[("x", .int 25)]] } =
      .ok (if ({ cols := ["x"], rows := [[("x", Value.int 25)]] } : Dataset).rows.length = 0
        then 0
        else ((({ cols := ["x"], rows := [[("x", Value.int 25)]] } : Dataset).rows.filter
            (fun r => cellChars (getCell r (String.mk ['x'])) =
              stripQuotes (stripWS ['2', '5']))).length : ℚ) /
          (({ cols := ["x"], rows := [[("x", Value.int 25)]] } : Dataset).rows.length : ℚ)
            * 100) :=
  claim_C10.1 { cols := ["x"], rows := [[("x", .int 25)]] } ['x'] ['2', '5'] ['2', '5'] 3
    (by decide) (by decide) (by decide) (by decide) (by decide) (by decide)
    (by decide) (by decide)
